import Mathlib

/-!
Verification of the OpenSouth scraper pipeline (`scrapers.py`) against its
natural-language specification.

The Python module is shallowly embedded: network and filesystem effects are
made explicit (the per-attempt HTTP GET becomes a function `Nat → Option α`,
the filesystem becomes a finite map from path strings to contents), byte
strings become `List Nat`, and Python strings become Lean `String`s
(manipulated through their `List Char` representation).  Library behaviour
that the code relies on (Python's `re` module with Unicode semantics,
`json.dump` with `ensure_ascii=False, indent=2`, `hashlib.sha1`) is embedded
directly, restricted where necessary to an explicitly documented fragment.
-/

/-! ## The retrying fetcher: `safe_request` (scrapers.py lines 88-98)

```python
def safe_request(url, session=None, **kw):
    sess = session or requests.Session()
    for retry in range(3):
        try:
            resp = sess.get(url, timeout=30, **kw)
            resp.raise_for_status()
            return resp
        except Exception as err:
            logger.warning("%s - retry %d/3", err, retry + 1)
            time.sleep(3 * (retry + 1))
    raise RuntimeError(f"Failed to fetch {url} after 3 attempts")
```

The underlying HTTP GET is abstracted as `attempt : Nat → Option α`:
`attempt i = some r` means the `i`-th call of `sess.get` (0-based) returns a
success response `r` (2xx, so `raise_for_status` does not raise), and
`attempt i = none` means that call fails (network error or non-2xx status).
The trace records how many GET calls were made, the durations passed to
`time.sleep`, in order, and the final outcome. -/

structure ReqTrace (α : Type) where
  gets : Nat
  sleeps : List Nat
  result : Except String α

/-- One unrolling of `for retry in range(3)` starting at iteration `retry`
with `fuel` iterations remaining; `fuel = 0` corresponds to falling through
the loop to the final `raise`. -/
def safeRequestAux {α : Type} (url : String) (attempt : Nat → Option α) :
    Nat → Nat → ReqTrace α
  | _, 0 => ⟨0, [], .error ("Failed to fetch " ++ url ++ " after 3 attempts")⟩
  | retry, fuel + 1 =>
    match attempt retry with
    | some r => ⟨1, [], .ok r⟩
    | none =>
      let t := safeRequestAux url attempt (retry + 1) fuel
      ⟨t.gets + 1, 3 * (retry + 1) :: t.sleeps, t.result⟩

/-- Definition `safe_request`: up to 3 attempts starting at `retry = 0`. -/
def safe_request {α : Type} (url : String) (attempt : Nat → Option α) : ReqTrace α :=
  safeRequestAux url attempt 0 3

/-! ## Election-results table extraction (`ElectionsScraper.run`, lines 153-162)

```python
results = []
for tbl in tables:
    headers = [th.text.strip() for th in tbl.find("thead th")]
    for row in tbl.find("tbody tr"):
        cells = [td.text.strip() for td in row.find("td")]
        if len(cells) != len(headers):
            continue
        item = dict(zip(headers, cells))
        item["source_url"] = url
        results.append(item)
```

A parsed table is embedded as its stripped header texts and the stripped cell
texts of each body row.  A Python dict built as `dict(zip(headers, cells))`
followed by `item["source_url"] = url` is embedded as the association list of
its assignments in order (for duplicate keys the later assignment wins, so a
lookup must take the last matching binding). -/

structure HTable where
  headers : List String
  rows : List (List String)

/-- The record built from one kept row. -/
def electionRecord (url : String) (headers cells : List String) :
    List (String × String) :=
  headers.zip cells ++ [("source_url", url)]

/-- The inner `for row in tbl.find("tbody tr")` loop, accumulating into
`results` (the `continue` skips rows with a cell-count mismatch). -/
def electionsRowsLoop (url : String) (headers : List String) :
    List (List String) → List (List (String × String)) → List (List (String × String))
  | [], results => results
  | cells :: rest, results =>
    if cells.length ≠ headers.length then electionsRowsLoop url headers rest results
    else electionsRowsLoop url headers rest (results ++ [electionRecord url headers cells])

/-- The outer `for tbl in tables` loop. -/
def electionsTablesLoop (url : String) :
    List HTable → List (List (String × String)) → List (List (String × String))
  | [], results => results
  | tbl :: rest, results =>
    electionsTablesLoop url rest (electionsRowsLoop url tbl.headers tbl.rows results)

/-- The extraction step of `ElectionsScraper.run` over the parsed tables. -/
def electionsExtract (url : String) (tables : List HTable) :
    List (List (String × String)) :=
  electionsTablesLoop url tables []

/-! ## Content addressing: `sha1` (line 78-79) and `_save_binary` (lines 108-113)

```python
def sha1(data: bytes) -> str:
    return hashlib.sha1(data).hexdigest()

def _save_binary(self, content: bytes, rel_path: Path) -> Path:
    file_path = self.output_dir / rel_path
    file_path.parent.mkdir(parents=True, exist_ok=True)
    file_path.write_bytes(content)
    return file_path
```

`hashlib.sha1(...).hexdigest()` is embedded as a full implementation of
SHA-1 (FIPS 180) over byte lists, producing the 40-character lowercase hex
digest.  The filesystem is a finite map from absolute path strings to file
contents; `mkdir` has no observable effect in this model and `write_bytes`
overwrites. -/

def M32 : Nat := 4294967296

def rotl32 (n b : Nat) : Nat :=
  (((b % M32) <<< n) ||| ((b % M32) >>> (32 - n))) % M32

def be64 (n : Nat) : List Nat :=
  [(n >>> 56) % 256, (n >>> 48) % 256, (n >>> 40) % 256, (n >>> 32) % 256,
   (n >>> 24) % 256, (n >>> 16) % 256, (n >>> 8) % 256, n % 256]

/-- SHA-1 padding: append `0x80`, zero bytes up to 56 mod 64, and the
message bit length as a big-endian 64-bit integer. -/
def sha1Pad (msg : List Nat) : List Nat :=
  msg ++ 128 :: List.replicate ((64 - ((msg.length + 9) % 64)) % 64) 0 ++ be64 (8 * msg.length)

def bytesToWords : List Nat → List Nat
  | b0 :: b1 :: b2 :: b3 :: rest => (((b0 * 256 + b1) * 256 + b2) * 256 + b3) :: bytesToWords rest
  | _ => []

/-- Extend the 16 chunk words to 80 schedule words; the list is kept reversed
(newest word first) so the words 3, 8, 14 and 16 positions back are at
indices 2, 7, 13 and 15. -/
def sha1ExtendRev (rws : List Nat) : Nat → List Nat
  | 0 => rws
  | n + 1 =>
    let r := sha1ExtendRev rws n
    rotl32 1 (((r.getD 2 0) ^^^ (r.getD 7 0)) ^^^ ((r.getD 13 0) ^^^ (r.getD 15 0))) :: r

def sha1F (i b c d : Nat) : Nat :=
  if i < 20 then (b &&& c) ||| ((b ^^^ (M32 - 1)) &&& d)
  else if i < 40 then (b ^^^ c) ^^^ d
  else if i < 60 then ((b &&& c) ||| (b &&& d)) ||| (c &&& d)
  else (b ^^^ c) ^^^ d

def sha1K (i : Nat) : Nat :=
  if i < 20 then 1518500249
  else if i < 40 then 1859775393
  else if i < 60 then 2400959708
  else 3395469782

def sha1Rounds (i : Nat) : List Nat → Nat × Nat × Nat × Nat × Nat → Nat × Nat × Nat × Nat × Nat
  | [], st => st
  | w :: ws, (a, b, c, d, e) =>
    sha1Rounds (i + 1) ws
      ((rotl32 5 a + sha1F i b c d + e + sha1K i + w) % M32, a, rotl32 30 b, c, d)

def sha1Chunk (chunk : List Nat) (h : Nat × Nat × Nat × Nat × Nat) :
    Nat × Nat × Nat × Nat × Nat :=
  let ws := (sha1ExtendRev (bytesToWords chunk).reverse 64).reverse
  match h, sha1Rounds 0 ws h with
  | (h0, h1, h2, h3, h4), (a, b, c, d, e) =>
    ((h0 + a) % M32, (h1 + b) % M32, (h2 + c) % M32, (h3 + d) % M32, (h4 + e) % M32)

def sha1Chunks : Nat → List Nat → Nat × Nat × Nat × Nat × Nat → Nat × Nat × Nat × Nat × Nat
  | 0, _, h => h
  | n + 1, bytes, h => sha1Chunks n (bytes.drop 64) (sha1Chunk (bytes.take 64) h)

def hexDigitChar (n : Nat) : Char := Char.ofNat (if n < 10 then 48 + n else 87 + n)

def hex8 (n : Nat) : List Char :=
  [hexDigitChar ((n >>> 28) % 16), hexDigitChar ((n >>> 24) % 16),
   hexDigitChar ((n >>> 20) % 16), hexDigitChar ((n >>> 16) % 16),
   hexDigitChar ((n >>> 12) % 16), hexDigitChar ((n >>> 8) % 16),
   hexDigitChar ((n >>> 4) % 16), hexDigitChar (n % 16)]

/-- Definition `sha1(data)` from scrapers.py: `hashlib.sha1(data).hexdigest()`.
(Validated against the FIPS test vectors for the empty string, "abc" and
the 56-byte two-chunk message.) -/
def sha1hex (data : List Nat) : String :=
  let padded := sha1Pad data
  match sha1Chunks (padded.length / 64) padded
      (1732584193, 4023233417, 2562383102, 271733878, 3285377520) with
  | (h0, h1, h2, h3, h4) =>
    String.mk (hex8 h0 ++ hex8 h1 ++ hex8 h2 ++ hex8 h3 ++ hex8 h4)

/-- The output filesystem: binary files (written by `_save_binary`) and text
files (written by `_save_json`), keyed by absolute path strings. -/
structure Store where
  bin : String → Option (List Nat)
  txt : String → Option String

def emptyStore : Store := ⟨fun _ => none, fun _ => none⟩

def writeBin (st : Store) (p : String) (content : List Nat) : Store :=
  ⟨fun q => if q = p then some content else st.bin q, st.txt⟩

def writeTxt (st : Store) (p : String) (content : String) : Store :=
  ⟨st.bin, fun q => if q = p then some content else st.txt q⟩

/-- Definition `BaseScraper._save_binary`: joins the output dir with the relative path,
writes the bytes (overwriting), and returns the absolute path. -/
def save_binary (st : Store) (output_dir rel_path : String) (content : List Nat) :
    Store × String :=
  (writeBin st (output_dir ++ "/" ++ rel_path) content, output_dir ++ "/" ++ rel_path)

/-- The content-addressed relative path used by the document scrapers:
`Path(category) / f"{digest}.pdf"`. -/
def contentRel (category : String) (content : List Nat) : String :=
  category ++ "/" ++ sha1hex content ++ ".pdf"

/-! ## `slugify` (lines 82-85)

```python
def slugify(text: str) -> str:
    """Very simple slugify helper (ASCII only)."""
    text = re.sub(r"[^\w\-]+", "-", text.lower())
    return re.sub(r"-+", "-", text).strip("-")
```

Python's `str.lower` and the `re` classes `\w` / `\d` are Unicode-aware.
They are embedded here on an explicitly bounded fragment of Unicode that is
complete for ASCII and additionally covers the Latin-1 letters and the
Arabic letter and digit blocks that this scraper's sites use; on this
fragment the embedding agrees exactly with CPython's behaviour (spot-checked
against CPython: `re.sub(r"[^\w\-]+", "-", "كلميم")` keeps the Arabic
letters because they match `\w`).

The first `re.sub` replaces each maximal run of characters outside
`[\w\-]` by a single "-"; it is embedded as a scan carrying the flag
"the previous character was part of a dropped run".  The second collapses
runs of "-"; `strip("-")` removes leading and trailing dashes. -/

def pyIsWordChar (c : Char) : Bool :=
  decide ((48 ≤ c.toNat ∧ c.toNat ≤ 57) ∨ (65 ≤ c.toNat ∧ c.toNat ≤ 90) ∨
    (97 ≤ c.toNat ∧ c.toNat ≤ 122) ∨ c.toNat = 95 ∨
    (192 ≤ c.toNat ∧ c.toNat ≤ 214) ∨ (216 ≤ c.toNat ∧ c.toNat ≤ 246) ∨
    (248 ≤ c.toNat ∧ c.toNat ≤ 255) ∨
    (1569 ≤ c.toNat ∧ c.toNat ≤ 1610) ∨ (1632 ≤ c.toNat ∧ c.toNat ≤ 1641) ∨
    (1776 ≤ c.toNat ∧ c.toNat ≤ 1785))

/-- Fragment of Python's Unicode `str.lower` on the same character
fragment: ASCII uppercase and Latin-1 uppercase letters map down by 32
(0xD7 `×` is excluded: it is not a letter), everything else is fixed. -/
def pyLower (c : Char) : Char :=
  if 65 ≤ c.toNat ∧ c.toNat ≤ 90 then Char.ofNat (c.toNat + 32)
  else if (192 ≤ c.toNat ∧ c.toNat ≤ 214) ∨ (216 ≤ c.toNat ∧ c.toNat ≤ 222) then
    Char.ofNat (c.toNat + 32)
  else c

def isDash (c : Char) : Bool := decide (c = '-')

def keepChar (c : Char) : Bool := pyIsWordChar c || isDash c

def subNonWordRuns (prevDropped : Bool) : List Char → List Char
  | [] => []
  | c :: t =>
    if keepChar c then c :: subNonWordRuns false t
    else if prevDropped then subNonWordRuns true t
    else '-' :: subNonWordRuns true t

def collapseDashRuns (prevDash : Bool) : List Char → List Char
  | [] => []
  | c :: t =>
    if isDash c then
      if prevDash then collapseDashRuns true t else '-' :: collapseDashRuns true t
    else c :: collapseDashRuns false t

def rstripDash : List Char → List Char
  | [] => []
  | c :: t =>
    if rstripDash t = [] then (if isDash c then [] else [c])
    else c :: rstripDash t

def stripDash (l : List Char) : List Char := rstripDash (l.dropWhile isDash)

def slugChars (l : List Char) : List Char :=
  stripDash (collapseDashRuns false (subNonWordRuns false (l.map pyLower)))

/-- Definition `slugify(text)` from scrapers.py. -/
def slugify (text : String) : String := String.mk (slugChars text.data)

/-- No two adjacent dashes (the canonical-form invariant established by the
second `re.sub`). -/

def noTwoDashes : List Char → Bool
  | [] => true
  | a :: t =>
    (match t with
     | [] => true
     | b :: _ => !(isDash a && isDash b)) && noTwoDashes t

-- helper: noTwoDashes on cons

/-! ## JSON index serialization: `_save_json` (lines 115-120)

```python
def _save_json(self, data: Any, rel_path: Path) -> Path:
    file_path = self.output_dir / rel_path
    file_path.parent.mkdir(parents=True, exist_ok=True)
    with file_path.open("w", encoding="utf-8") as fh:
        json.dump(data, fh, ensure_ascii=False, indent=2)
    return file_path
```

Every index the scrapers write is a list of flat string-to-string dicts, so
`json.dump(data, fh, ensure_ascii=False, indent=2)` is embedded for exactly
that shape: a JSON array of objects with string values, two-space
indentation, item separator `","`, key separator `": "`.  With
`ensure_ascii=False` CPython escapes only `"`, `\` and the control
characters below 0x20 (with the usual short forms for `\b \t \n \f \r`
and `\u00XX` for the rest); all other characters — including all non-ASCII
— are written literally.  The parser below is the specification side of the
round-trip claim: a standard JSON parser for the same shape (accepting
arbitrary inter-token whitespace and all standard string escapes). -/

def lbrace : Char := Char.ofNat 123

def rbrace : Char := Char.ofNat 125

def hexVal (c : Char) : Option Nat :=
  if 48 ≤ c.toNat ∧ c.toNat ≤ 57 then some (c.toNat - 48)
  else if 97 ≤ c.toNat ∧ c.toNat ≤ 102 then some (c.toNat - 87)
  else if 65 ≤ c.toNat ∧ c.toNat ≤ 70 then some (c.toNat - 55)
  else none

/-- CPython's `ensure_ascii=False` escaping of one character. -/
def escChar (c : Char) : List Char :=
  if c = '"' then ['\\', '"']
  else if c = '\\' then ['\\', '\\']
  else if c = '\n' then ['\\', 'n']
  else if c = '\t' then ['\\', 't']
  else if c = '\r' then ['\\', 'r']
  else if c = Char.ofNat 8 then ['\\', 'b']
  else if c = Char.ofNat 12 then ['\\', 'f']
  else if c.toNat < 32 then
    ['\\', 'u', '0', '0', hexDigitChar (c.toNat / 16), hexDigitChar (c.toNat % 16)]
  else [c]

def escStr : List Char → List Char
  | [] => []
  | c :: t => escChar c ++ escStr t

/-- A JSON string literal. -/
def serStr (s : String) : List Char := '"' :: (escStr s.data ++ ['"'])

/-- One `"key": "value"` member at object indentation depth 2 (4 spaces). -/
def serMember (kv : String × String) : List Char :=
  ' ' :: ' ' :: ' ' :: ' ' :: (serStr kv.1 ++ ':' :: ' ' :: serStr kv.2)

def serMembers : List (String × String) → List Char
  | [] => []
  | [kv] => serMember kv
  | kv :: rest => serMember kv ++ ',' :: '\n' :: serMembers rest

/-- One record as a JSON object at array indentation depth 1. -/
def serRecord (r : List (String × String)) : List Char :=
  if r.isEmpty then [lbrace, rbrace]
  else lbrace :: '\n' :: (serMembers r ++ '\n' :: ' ' :: ' ' :: [rbrace])

def serItems : List (List (String × String)) → List Char
  | [] => []
  | [r] => ' ' :: ' ' :: serRecord r
  | r :: rest => ' ' :: ' ' :: serRecord r ++ ',' :: '\n' :: serItems rest

def serIndexChars (records : List (List (String × String))) : List Char :=
  if records.isEmpty then ['[', ']']
  else '[' :: '\n' :: (serItems records ++ '\n' :: [']'])

/-- The exact text `json.dump(records, fh, ensure_ascii=False, indent=2)`
writes for a list of flat string-valued records. -/
def serIndex (records : List (List (String × String))) : String :=
  String.mk (serIndexChars records)

/-- `BaseScraper._save_json`: write (overwriting) the serialized records at
`output_dir / rel_path` and return that path. -/
def save_json (st : Store) (output_dir rel_path : String)
    (records : List (List (String × String))) : Store × String :=
  (writeTxt st (output_dir ++ "/" ++ rel_path) (serIndex records),
   output_dir ++ "/" ++ rel_path)

def isJsonWs (c : Char) : Bool :=
  c = ' ' || c = '\n' || c = '\t' || c = '\r'

def skipWs (l : List Char) : List Char := l.dropWhile isJsonWs

def unescChar (c : Char) : Option Char :=
  if c = '"' then some '"'
  else if c = '\\' then some '\\'
  else if c = '/' then some '/'
  else if c = 'b' then some (Char.ofNat 8)
  else if c = 'f' then some (Char.ofNat 12)
  else if c = 'n' then some '\n'
  else if c = 'r' then some '\r'
  else if c = 't' then some '\t'
  else none

/-- Parse the body of a JSON string literal (after the opening quote) up to
its closing quote; returns the decoded characters and the rest of the
input.  Fueled by an upper bound on the number of characters produced. -/
def pJsonStr : Nat → List Char → Option (List Char × List Char)
  | 0, _ => none
  | _ + 1, [] => none
  | fuel + 1, c :: rest =>
    if c = '"' then some ([], rest)
    else if c = '\\' then
      match rest with
      | [] => none
      | e :: r2 =>
        if e = 'u' then
          match r2 with
          | h1 :: h2 :: h3 :: h4 :: r3 =>
            match hexVal h1, hexVal h2, hexVal h3, hexVal h4 with
            | some a, some b, some c4, some d =>
              (match pJsonStr fuel r3 with
               | some (s, rr) =>
                 some (Char.ofNat (((a * 16 + b) * 16 + c4) * 16 + d) :: s, rr)
               | none => none)
            | _, _, _, _ => none
          | _ => none
        else
          match unescChar e with
          | some ch =>
            (match pJsonStr fuel r2 with
             | some (s, rr) => some (ch :: s, rr)
             | none => none)
          | none => none
    else
      match pJsonStr fuel rest with
      | some (s, rr) => some (c :: s, rr)
      | none => none

/-- Parse the members of a JSON object (after the opening brace); fueled by
an upper bound on the number of members. -/
def pJsonObj : Nat → List Char → Option (List (String × String) × List Char)
  | 0, _ => none
  | fuel + 1, input =>
    match skipWs input with
    | [] => none
    | c :: rest =>
      if c = rbrace then some ([], rest)
      else if c = '"' then
        match pJsonStr (rest.length + 1) rest with
        | some (k, r1) =>
          (match skipWs r1 with
           | ':' :: r2 =>
             (match skipWs r2 with
              | '"' :: r3 =>
                (match pJsonStr (r3.length + 1) r3 with
                 | some (v, r4) =>
                   (match skipWs r4 with
                    | c2 :: r5 =>
                      if c2 = ',' then
                        match pJsonObj fuel r5 with
                        | some (ms, rr) => some ((String.mk k, String.mk v) :: ms, rr)
                        | none => none
                      else if c2 = rbrace then some ([(String.mk k, String.mk v)], r5)
                      else none
                    | [] => none)
                 | none => none)
              | _ => none)
           | _ => none)
        | none => none
      else none

/-- Parse the items of a JSON array of objects (after the opening bracket);
fueled by an upper bound on the number of items. -/
def pJsonArr : Nat → List Char → Option (List (List (String × String)) × List Char)
  | 0, _ => none
  | fuel + 1, input =>
    match skipWs input with
    | [] => none
    | c :: rest =>
      if c = ']' then some ([], rest)
      else if c = lbrace then
        match pJsonObj (rest.length + 1) rest with
        | some (r, r1) =>
          (match skipWs r1 with
           | c2 :: r2 =>
             if c2 = ',' then
               match pJsonArr fuel r2 with
               | some (rs, rr) => some (r :: rs, rr)
               | none => none
             else if c2 = ']' then some ([r], r2)
             else none
           | [] => none)
        | none => none
      else none

/-- Parse a whole JSON document of the index shape. -/
def parseJsonIndex (s : String) : Option (List (List (String × String))) :=
  match skipWs s.data with
  | '[' :: rest =>
    (match pJsonArr (rest.length + 1) rest with
     | some (rs, rr) => if (skipWs rr).isEmpty then some rs else none
     | none => none)
  | _ => none

/-! ## Commune budgets: year extraction and records (`_scrape_budgets`, lines 228-242)

```python
def _scrape_budgets(self):
    url = self._url(self.BUDGETS_SLUG)
    soup = BeautifulSoup(safe_request(url).text, "html.parser")
    links = soup.select("a[href$='.pdf']")
    idx = []
    for a in links:
        pdf_url = a["href"] if a["href"].startswith("http") else f"{self.BASE}{a['href']}"
        year_match = re.search(r"(\d{4})", pdf_url)
        year = year_match.group(1) if year_match else "unknown"
        pdf_bytes = safe_request(pdf_url).content
        digest = sha1(pdf_bytes)
        rel_path = Path("commune/budgets") / f"{digest}.pdf"
        self._save_binary(pdf_bytes, rel_path)
        idx.append({"year": year, "source_url": pdf_url, "sha1": digest, "file": str(rel_path)})
    self._save_json(idx, Path("commune/budgets_index.json"))
```

The parsed page is abstracted to the list of `href` values of the selected
links; the nested `safe_request` calls for the PDFs are abstracted to
`fetch : String → Option (List Nat)` (`some` = the eventual successful
response body, `none` = `safe_request` exhausted its retries and raised).
Python's `\d` (Unicode decimal digits) is embedded on the same character
fragment as `\w` above.  `re.search(r"(\d{4})", s)` finds the leftmost
position at which four consecutive digit characters occur. -/

def pyIsDigit (c : Char) : Bool :=
  decide ((48 ≤ c.toNat ∧ c.toNat ≤ 57) ∨ (1632 ≤ c.toNat ∧ c.toNat ≤ 1641) ∨
    (1776 ≤ c.toNat ∧ c.toNat ≤ 1785))

/-- Leftmost run of 4 consecutive digits: `re.search(r"(\d{4})", ·)`. -/
def yearRun : List Char → Option (List Char)
  | [] => none
  | c1 :: t =>
    match t with
    | c2 :: c3 :: c4 :: _ =>
      if pyIsDigit c1 && pyIsDigit c2 && pyIsDigit c3 && pyIsDigit c4
      then some [c1, c2, c3, c4]
      else yearRun t
    | _ => none

/-- The `year` field: the matched 4-digit group, or the literal "unknown". -/
def yearOf (url : String) : String :=
  match yearRun url.data with
  | some ds => String.mk ds
  | none => "unknown"

/-- Python's `str.startswith`. -/
def pyStartsWith (s pre : String) : Bool := pre.data.isPrefixOf s.data

def communeBASE : String := "https://communeguelmim.ma"

/-- Relative-link resolution used by the Commune document loops:
`a["href"] if a["href"].startswith("http") else f"{self.BASE}{a['href']}"`. -/
def resolveHref (base href : String) : String :=
  if pyStartsWith href "http" then href else base ++ href

/-- The `for a in links` loop of `_scrape_budgets` followed by the final
`_save_json` of the index; aborts (propagating the `RuntimeError`) as soon
as one PDF fetch exhausts its retries. -/
def budgetsGo (output_dir : String) (fetch : String → Option (List Nat)) :
    List String → List (List (String × String)) → Store →
      Store × Except String (List (List (String × String)))
  | [], idx, st =>
    (writeTxt st (output_dir ++ "/" ++ "commune/budgets_index.json")
      (serIndex idx), .ok idx)
  | href :: rest, idx, st =>
    let pdf_url := resolveHref communeBASE href
    let year := yearOf pdf_url
    match fetch pdf_url with
    | none => (st, .error ("Failed to fetch " ++ pdf_url ++ " after 3 attempts"))
    | some pdf_bytes =>
      let digest := sha1hex pdf_bytes
      let rel_path := contentRel "commune/budgets" pdf_bytes
      budgetsGo output_dir fetch rest
        (idx ++ [[("year", year), ("source_url", pdf_url), ("sha1", digest),
                  ("file", rel_path)]])
        (save_binary st output_dir rel_path pdf_bytes).1

def scrape_budgets (output_dir : String) (fetch : String → Option (List Nat))
    (hrefs : List String) (st : Store) :
    Store × Except String (List (List (String × String))) :=
  budgetsGo output_dir fetch hrefs [] st

/-- Specification-side predicate: the 4-character window of `l` starting at
`i` consists of digit characters. -/
def windowAllDigits (l : List Char) (i : Nat) : Prop :=
  i + 4 ≤ l.length ∧ ∀ j, j < 4 → pyIsDigit (l.getD (i + j) ' ') = true

/-! ## Commune minutes: incremental binaries, index written once (`_scrape_minutes`, lines 207-225)

```python
def _scrape_minutes(self):
    url = self._url(self.MINUTES_SLUG)
    soup = BeautifulSoup(safe_request(url).text, "html.parser")
    links = soup.select("a[href$='.pdf']")
    index = []
    for a in tqdm(links, desc="minutes"):
        pdf_url = a["href"] if a["href"].startswith("http") else f"{self.BASE}{a['href']}"
        title = a.get_text(strip=True)
        pdf_bytes = safe_request(pdf_url).content
        digest = sha1(pdf_bytes)
        rel_path = Path("commune/minutes") / f"{digest}.pdf"
        self._save_binary(pdf_bytes, rel_path)
        index.append({...})
    self._save_json(index, Path("commune/minutes_index.json"))
```

Each selected link is abstracted to its `(href, link text)` pair; the PDF
fetches are abstracted as for `_scrape_budgets`.  A `none` from `fetch`
models `safe_request` raising `RuntimeError` after exhausting its retries,
which unwinds the loop: binaries saved so far stay in the store, and the
`_save_json` at the end is never reached. -/

def minutesGo (output_dir : String) (fetch : String → Option (List Nat)) :
    List (String × String) → List (List (String × String)) → Store →
      Store × Except String (List (List (String × String)))
  | [], index, st =>
    (writeTxt st (output_dir ++ "/" ++ "commune/minutes_index.json")
      (serIndex index), .ok index)
  | (href, title) :: rest, index, st =>
    let pdf_url := resolveHref communeBASE href
    match fetch pdf_url with
    | none => (st, .error ("Failed to fetch " ++ pdf_url ++ " after 3 attempts"))
    | some pdf_bytes =>
      let digest := sha1hex pdf_bytes
      let rel_path := contentRel "commune/minutes" pdf_bytes
      minutesGo output_dir fetch rest
        (index ++ [[("title", title), ("source_url", pdf_url), ("sha1", digest),
                    ("file", rel_path)]])
        (save_binary st output_dir rel_path pdf_bytes).1

def scrape_minutes (output_dir : String) (fetch : String → Option (List Nat))
    (links : List (String × String)) (st : Store) :
    Store × Except String (List (List (String × String))) :=
  minutesGo output_dir fetch links [] st

/-! ## Parliament member extraction (`ParliamentScraper.run`, lines 301-324)

```python
def run(self):
    url = f"{self.BASE}/ar/members"
    soup = BeautifulSoup(safe_request(url, self.session).text, "html.parser")
    cards = soup.select("div.views-row")
    idx = []
    for c in cards:
        if self.constituency not in c.get_text():
            continue
        link = c.select_one("a")
        profile_url = f"{self.BASE}{link['href']}"
        name = link.get_text(strip=True)
        profile_html = safe_request(profile_url, self.session).text
        profile_soup = BeautifulSoup(profile_html, "html.parser")
        party = profile_soup.select_one("div.field--name-field-party span").get_text(strip=True) \
            if profile_soup.select_one("div.field--name-field-party span") else ""
        idx.append({"name": name, "party": party,
                    "constituency": self.constituency, "profile_url": profile_url})
    self._save_json(idx, Path("parliament/members.json"))
```

A listing card is abstracted to its rendered text and its first anchor
(`select_one("a")` — `none` when the card has no anchor, in which case the
Python code raises a `TypeError` on `link['href']`).  Fetching and parsing a
profile page is abstracted to
`fetchProfile : String → Option (Option String)`: the outer `Option` is the
`safe_request` outcome and the inner one is the party `span` being present
(with its stripped text) or absent.  Python's substring test `x in s` is
embedded over the character lists. -/

structure PCard where
  text : String
  anchor : Option (String × String)

def listContainsSub (needle : List Char) : List Char → Bool
  | [] => needle.isEmpty
  | a :: t => needle.isPrefixOf (a :: t) || listContainsSub needle t

/-- Python's substring containment `needle in hay`. -/
def pyContains (hay needle : String) : Bool := listContainsSub needle.data hay.data

def parliamentBASE : String := "https://www.parlement.ma"

/-- The `for c in cards` loop of `ParliamentScraper.run`.  A matching card
without an anchor aborts with the `TypeError` Python would raise; a profile
fetch that exhausts its retries aborts with the `RuntimeError`. -/
def parliamentGo (constituency : String) (fetchProfile : String → Option (Option String)) :
    List PCard → List (List (String × String)) →
      Except String (List (List (String × String)))
  | [], idx => .ok idx
  | c :: rest, idx =>
    if pyContains c.text constituency then
      match c.anchor with
      | none => .error "TypeError: NoneType is not subscriptable"
      | some (href, linkText) =>
        let profile_url := parliamentBASE ++ href
        match fetchProfile profile_url with
        | none => .error ("Failed to fetch " ++ profile_url ++ " after 3 attempts")
        | some partyField =>
          parliamentGo constituency fetchProfile rest
            (idx ++ [[("name", linkText), ("party", partyField.getD ""),
                      ("constituency", constituency), ("profile_url", profile_url)]])
    else parliamentGo constituency fetchProfile rest idx

/-- `ParliamentScraper.run` after the listing page has been fetched and
parsed into cards: run the loop, then write the members index. -/
def parliamentRun (constituency : String) (cards : List PCard)
    (fetchProfile : String → Option (Option String)) (st : Store) (output_dir : String) :
    Store × Except String (List (List (String × String))) :=
  match parliamentGo constituency fetchProfile cards [] with
  | .ok idx => ((save_json st output_dir "parliament/members.json" idx).1, .ok idx)
  | .error e => (st, .error e)

/-! ## Theorems -/

/-- Claim C1: the retrying fetch makes at most 3 GET calls; on the first
successful attempt it returns that attempt's response; a dependency failing
twice then succeeding yields the success after exactly the two backoff
sleeps 3 and 6; if all three attempts fail the call fails with an error
naming the URL. -/
theorem claim_C1_safe_request {α : Type} (url : String) (attempt : Nat → Option α) :
    (safe_request url attempt).gets ≤ 3
    ∧ (∀ r : α, attempt 0 = none → attempt 1 = none → attempt 2 = some r →
        (safe_request url attempt).result = .ok r
        ∧ (safe_request url attempt).sleeps = [3, 6]
        ∧ (safe_request url attempt).gets = 3)
    ∧ (∀ (i : Nat) (r : α), i < 3 → (∀ j, j < i → attempt j = none) → attempt i = some r →
        (safe_request url attempt).result = .ok r)
    ∧ ((∀ i, i < 3 → attempt i = none) →
        (safe_request url attempt).result =
          .error ("Failed to fetch " ++ url ++ " after 3 attempts")) := by
  refine ⟨?_, ?_, ?_, ?_⟩
  · cases h0 : attempt 0 <;> cases h1 : attempt 1 <;> cases h2 : attempt 2 <;>
      simp [safe_request, safeRequestAux, h0, h1, h2]
  · intro r h0 h1 h2
    simp [safe_request, safeRequestAux, h0, h1, h2]
  · intro i r hi hprev hi_some
    interval_cases i
    · simp [safe_request, safeRequestAux, hi_some]
    · have h0 := hprev 0 (by omega)
      simp [safe_request, safeRequestAux, h0, hi_some]
    · have h0 := hprev 0 (by omega)
      have h1 := hprev 1 (by omega)
      simp [safe_request, safeRequestAux, h0, h1, hi_some]
  · intro hall
    have h0 := hall 0 (by omega)
    have h1 := hall 1 (by omega)
    have h2 := hall 2 (by omega)
    simp [safe_request, safeRequestAux, h0, h1, h2]

/-- Witness for C1 at a concrete dependency that fails twice then succeeds. -/
theorem claim_C1_safe_request_witness :
    (safe_request "http://x" (fun i => if i = 2 then some 7 else none)).gets ≤ 3
    ∧ (safe_request "http://x" (fun i => if i = 2 then some 7 else none)).result = .ok 7
    ∧ (safe_request "http://x" (fun i => if i = 2 then some 7 else none)).sleeps = [3, 6] := by
  have h := claim_C1_safe_request "http://x" (fun i => if i = 2 then some 7 else none)
  exact ⟨h.1, (h.2.1 7 rfl rfl rfl).1, (h.2.1 7 rfl rfl rfl).2.1⟩

/-- Claim C10: when all 3 attempts fail, `safe_request` sleeps exactly three
times — 3, 6, and 9 time units — including the sleep after the final failed
attempt, before raising the terminal error. -/
theorem claim_C10_sleeps_after_last_failure {α : Type} (url : String)
    (attempt : Nat → Option α) (hall : ∀ i, i < 3 → attempt i = none) :
    (safe_request url attempt).sleeps = [3, 6, 9]
    ∧ (safe_request url attempt).result =
        .error ("Failed to fetch " ++ url ++ " after 3 attempts") := by
  have h0 := hall 0 (by omega)
  have h1 := hall 1 (by omega)
  have h2 := hall 2 (by omega)
  simp [safe_request, safeRequestAux, h0, h1, h2]

/-- Witness for C10 at a dependency that always fails. -/
theorem claim_C10_sleeps_after_last_failure_witness :
    (safe_request "http://x" (fun _ => (none : Option Nat))).sleeps = [3, 6, 9] :=
  (claim_C10_sleeps_after_last_failure "http://x" (fun _ => (none : Option Nat))
    (fun _ _ => rfl)).1

theorem electionsRowsLoop_eq (url : String) (headers : List String)
    (rows : List (List String)) (acc : List (List (String × String))) :
    electionsRowsLoop url headers rows acc =
      acc ++ (rows.filter (fun cells => cells.length = headers.length)).map
        (fun cells => electionRecord url headers cells) := by
  induction rows generalizing acc with
  | nil => simp [electionsRowsLoop]
  | cons cells rest ih =>
    by_cases h : cells.length = headers.length
    · simp [electionsRowsLoop, h, ih, List.filter_cons]
    · simp [electionsRowsLoop, h, ih, List.filter_cons]

theorem electionsTablesLoop_eq (url : String) (tables : List HTable)
    (acc : List (List (String × String))) :
    electionsTablesLoop url tables acc =
      acc ++ tables.flatMap (fun tbl =>
        (tbl.rows.filter (fun cells => cells.length = tbl.headers.length)).map
          (fun cells => electionRecord url tbl.headers cells)) := by
  induction tables generalizing acc with
  | nil => simp [electionsTablesLoop]
  | cons tbl rest ih =>
    simp [electionsTablesLoop, ih, electionsRowsLoop_eq]

/-- Claim C2: every body row whose cell count equals the header count yields
exactly one record (headers zipped positionally with the cells, plus
`source_url`); mismatched rows are dropped without affecting later rows —
the loop is extensionally the filter-then-map over every table. Moreover
each emitted record's keys are exactly the header names plus `source_url`. -/
theorem claim_C2_elections_rows (url : String) (tables : List HTable) :
    electionsExtract url tables =
      tables.flatMap (fun tbl =>
        (tbl.rows.filter (fun cells => cells.length = tbl.headers.length)).map
          (fun cells => electionRecord url tbl.headers cells))
    ∧ (∀ rec ∈ electionsExtract url tables, ∃ tbl ∈ tables,
        ∀ k : String, (∃ v, (k, v) ∈ rec) ↔ (k ∈ tbl.headers ∨ k = "source_url")) := by
  constructor
  · simpa [electionsExtract] using electionsTablesLoop_eq url tables []
  · intro rec hrec
    rw [electionsExtract, electionsTablesLoop_eq url tables []] at hrec
    simp only [List.nil_append, List.mem_flatMap, List.mem_map, List.mem_filter] at hrec
    obtain ⟨tbl, htbl, cells, ⟨_, hlen⟩, hrec⟩ := hrec
    refine ⟨tbl, htbl, fun k => ?_⟩
    subst hrec
    have hlen' : tbl.headers.length ≤ cells.length := by
      simp only [decide_eq_true_eq] at hlen
      omega
    constructor
    · rintro ⟨v, hv⟩
      rcases List.mem_append.1 hv with h | h
      · exact Or.inl (by
          have := List.mem_map_of_mem Prod.fst h
          rwa [List.map_fst_zip _ _ hlen'] at this)
      · simp only [electionRecord, List.mem_singleton, Prod.mk.injEq] at h
        exact Or.inr h.1
    · rintro (hk | hk)
      · have : k ∈ (tbl.headers.zip cells).map Prod.fst := by
          rwa [List.map_fst_zip _ _ hlen']
        obtain ⟨⟨k', v⟩, hmem, hfst⟩ := List.mem_map.1 this
        have hk' : k' = k := hfst
        refine ⟨v, List.mem_append_left _ ?_⟩
        rwa [hk'] at hmem
      · exact ⟨url, List.mem_append_right _ (by simp [hk])⟩

/-- Witness for C2 on a concrete table with one matching and one ragged row. -/
theorem claim_C2_elections_rows_witness :
    electionsExtract "u" [⟨["a", "b"], [["1", "2"], ["1"], ["3", "4"]]⟩] =
      [[("a", "1"), ("b", "2"), ("source_url", "u")],
       [("a", "3"), ("b", "4"), ("source_url", "u")]]
    ∧ ∀ rec ∈ electionsExtract "u" [⟨["a", "b"], [["1", "2"], ["1"], ["3", "4"]]⟩],
        ∃ tbl ∈ [(⟨["a", "b"], [["1", "2"], ["1"], ["3", "4"]]⟩ : HTable)],
        ∀ k : String, (∃ v, (k, v) ∈ rec) ↔ (k ∈ tbl.headers ∨ k = "source_url") := by
  have h := claim_C2_elections_rows "u" [⟨["a", "b"], [["1", "2"], ["1"], ["3", "4"]]⟩]
  refine ⟨?_, h.2⟩
  rw [h.1]
  rfl

/-- Claim C4: `sha1` is deterministic — equal byte payloads give equal hex
digests — and storing the same payload twice under the content-addressed
naming scheme yields the same absolute path both times and leaves the
filesystem exactly as after the first write (no duplicate file). -/
theorem claim_C4_digest_idempotent_store (b1 b2 : List Nat) (st : Store)
    (output_dir category : String) (h : b1 = b2) :
    sha1hex b1 = sha1hex b2
    ∧ (save_binary (save_binary st output_dir (contentRel category b1) b1).1
        output_dir (contentRel category b2) b2).2 =
      (save_binary st output_dir (contentRel category b1) b1).2
    ∧ (save_binary (save_binary st output_dir (contentRel category b1) b1).1
        output_dir (contentRel category b2) b2).1 =
      (save_binary st output_dir (contentRel category b1) b1).1 := by
  subst h
  refine ⟨rfl, rfl, ?_⟩
  simp only [save_binary, writeBin]
  refine congrArg₂ Store.mk (funext fun q => ?_) rfl
  by_cases hq : q = output_dir ++ "/" ++ contentRel category b1 <;> simp [hq]

/-- Witness for C4 at a concrete payload. -/
theorem claim_C4_digest_idempotent_store_witness :
    sha1hex [1, 2, 3] = sha1hex [1, 2, 3]
    ∧ (save_binary (save_binary emptyStore "data" (contentRel "commune/minutes" [1, 2, 3]) [1, 2, 3]).1
        "data" (contentRel "commune/minutes" [1, 2, 3]) [1, 2, 3]).2 =
      (save_binary emptyStore "data" (contentRel "commune/minutes" [1, 2, 3]) [1, 2, 3]).2
    ∧ (save_binary (save_binary emptyStore "data" (contentRel "commune/minutes" [1, 2, 3]) [1, 2, 3]).1
        "data" (contentRel "commune/minutes" [1, 2, 3]) [1, 2, 3]).1 =
      (save_binary emptyStore "data" (contentRel "commune/minutes" [1, 2, 3]) [1, 2, 3]).1 :=
  claim_C4_digest_idempotent_store [1, 2, 3] [1, 2, 3] emptyStore "data" "commune/minutes" rfl

/-- Fragment of Python's Unicode word-character class `\w`
(`ch.isalnum() or ch == "_"`): ASCII digits, ASCII letters, underscore,
Latin-1 letters, Arabic letters, Arabic-Indic and extended Arabic-Indic
digits. -/
theorem charToNat_ofNat_valid (n : Nat) (h : n < 55296) : (Char.ofNat n).toNat = n := by
  have hv : n.isValidChar := Or.inl h
  simp [Char.ofNat, hv]
  rfl

theorem noTwoDashes_cons (c : Char) (t : List Char) :
    noTwoDashes (c :: t) = true ↔
      (∀ b, t.head? = some b → ¬(isDash c = true ∧ isDash b = true)) ∧ noTwoDashes t = true := by
  cases t with
  | nil => simp [noTwoDashes]
  | cons b t' =>
    simp only [noTwoDashes, Bool.and_eq_true, Bool.not_eq_true', List.head?_cons]
    constructor
    · rintro ⟨h1, h2⟩
      refine ⟨fun b' hb' => ?_, h2⟩
      cases hb'
      rintro ⟨hc, hb⟩
      rw [hc, hb] at h1
      simp at h1
    · rintro ⟨h1, h2⟩
      refine ⟨?_, h2⟩
      have := h1 b rfl
      cases hc : isDash c <;> cases hb : isDash b <;> simp_all

theorem pyLower_idem (c : Char) : pyLower (pyLower c) = pyLower c := by
  by_cases h1 : 65 ≤ c.toNat ∧ c.toNat ≤ 90
  · have hval : (Char.ofNat (c.toNat + 32)).toNat = c.toNat + 32 :=
      charToNat_ofNat_valid _ (by omega)
    have hl : pyLower c = Char.ofNat (c.toNat + 32) := by
      unfold pyLower
      rw [if_pos h1]
    rw [hl]
    unfold pyLower
    rw [if_neg (by rw [hval]; omega), if_neg (by rw [hval]; omega)]
  · by_cases h2 : (192 ≤ c.toNat ∧ c.toNat ≤ 214) ∨ (216 ≤ c.toNat ∧ c.toNat ≤ 222)
    · have hval : (Char.ofNat (c.toNat + 32)).toNat = c.toNat + 32 :=
        charToNat_ofNat_valid _ (by omega)
      have hl : pyLower c = Char.ofNat (c.toNat + 32) := by
        unfold pyLower
        rw [if_neg h1, if_pos h2]
      rw [hl]
      unfold pyLower
      rw [if_neg (by rw [hval]; omega), if_neg (by rw [hval]; omega)]
    · have hl : pyLower c = c := by
        unfold pyLower
        rw [if_neg h1, if_neg h2]
      rw [hl, hl]

theorem pyLower_dash : pyLower '-' = '-' := by decide

theorem keepChar_dash : keepChar '-' = true := by decide

-- membership propagation

theorem mem_subNonWordRuns {c : Char} :
    ∀ (b : Bool) (l : List Char), c ∈ subNonWordRuns b l →
      c = '-' ∨ (keepChar c = true ∧ c ∈ l) := by
  intro b l
  induction l generalizing b with
  | nil => simp [subNonWordRuns]
  | cons a t ih =>
    intro hc
    unfold subNonWordRuns at hc
    by_cases hk : keepChar a = true
    · rw [if_pos hk] at hc
      rcases List.mem_cons.1 hc with h | h
      · subst h
        exact Or.inr ⟨hk, List.mem_cons_self _ _⟩
      · rcases ih false h with h' | ⟨h1, h2⟩
        · exact Or.inl h'
        · exact Or.inr ⟨h1, List.mem_cons_of_mem _ h2⟩
    · rw [if_neg hk] at hc
      by_cases hp : b = true
      · rw [if_pos hp] at hc
        rcases ih true hc with h' | ⟨h1, h2⟩
        · exact Or.inl h'
        · exact Or.inr ⟨h1, List.mem_cons_of_mem _ h2⟩
      · rw [if_neg hp] at hc
        rcases List.mem_cons.1 hc with h | h
        · exact Or.inl h
        · rcases ih true h with h' | ⟨h1, h2⟩
          · exact Or.inl h'
          · exact Or.inr ⟨h1, List.mem_cons_of_mem _ h2⟩

theorem mem_collapseDashRuns {c : Char} :
    ∀ (b : Bool) (l : List Char), c ∈ collapseDashRuns b l → c ∈ l := by
  intro b l
  induction l generalizing b with
  | nil => simp [collapseDashRuns]
  | cons a t ih =>
    intro hc
    unfold collapseDashRuns at hc
    by_cases hd : isDash a = true
    · rw [if_pos hd] at hc
      by_cases hp : b = true
      · rw [if_pos hp] at hc
        exact List.mem_cons_of_mem _ (ih true hc)
      · rw [if_neg hp] at hc
        rcases List.mem_cons.1 hc with h | h
        · subst h
          have : a = '-' := of_decide_eq_true hd
          subst this
          exact List.mem_cons_self _ _
        · exact List.mem_cons_of_mem _ (ih true h)
    · rw [if_neg hd] at hc
      rcases List.mem_cons.1 hc with h | h
      · subst h
        exact List.mem_cons_self _ _
      · exact List.mem_cons_of_mem _ (ih false h)

theorem mem_rstripDash {c : Char} : ∀ l : List Char, c ∈ rstripDash l → c ∈ l := by
  intro l
  induction l with
  | nil => simp [rstripDash]
  | cons a t ih =>
    intro hc
    unfold rstripDash at hc
    by_cases he : rstripDash t = []
    · rw [if_pos he] at hc
      by_cases hd : isDash a = true
      · rw [if_pos hd] at hc
        simp at hc
      · rw [if_neg hd] at hc
        rcases List.mem_cons.1 hc with h | h
        · subst h
          exact List.mem_cons_self _ _
        · simp at h
    · rw [if_neg he] at hc
      rcases List.mem_cons.1 hc with h | h
      · subst h
        exact List.mem_cons_self _ _
      · exact List.mem_cons_of_mem _ (ih h)

theorem mem_dropWhile {c : Char} (p : Char → Bool) :
    ∀ l : List Char, c ∈ l.dropWhile p → c ∈ l := by
  intro l
  induction l with
  | nil => simp
  | cons a t ih =>
    intro hc
    rw [List.dropWhile_cons] at hc
    by_cases hp : p a = true
    · rw [if_pos hp] at hc
      exact List.mem_cons_of_mem _ (ih hc)
    · rw [if_neg hp] at hc
      exact hc

-- identity lemmas on canonical strings

theorem map_pyLower_id {l : List Char} (h : ∀ c ∈ l, pyLower c = c) :
    l.map pyLower = l := by
  induction l with
  | nil => rfl
  | cons a t ih =>
    simp only [List.map_cons, h a (List.mem_cons_self _ _),
      ih (fun c hc => h c (List.mem_cons_of_mem _ hc))]

theorem subNonWordRuns_id {l : List Char} (h : ∀ c ∈ l, keepChar c = true) :
    ∀ b, subNonWordRuns b l = l := by
  induction l with
  | nil => intro b; rfl
  | cons a t ih =>
    intro b
    unfold subNonWordRuns
    rw [if_pos (h a (List.mem_cons_self _ _)),
      ih (fun c hc => h c (List.mem_cons_of_mem _ hc)) false]

theorem collapseDashRuns_id :
    ∀ l : List Char, noTwoDashes l = true →
      collapseDashRuns false l = l ∧ (l.head? ≠ some '-' → collapseDashRuns true l = l) := by
  intro l
  induction l with
  | nil => exact fun _ => ⟨rfl, fun _ => rfl⟩
  | cons a t ih =>
    intro hdd
    rcases (noTwoDashes_cons a t).1 hdd with ⟨hpair, htail⟩
    rcases ih htail with ⟨ihf, iht⟩
    constructor
    · unfold collapseDashRuns
      by_cases hd : isDash a = true
      · rw [if_pos hd, if_neg (by simp)]
        have ha : a = '-' := of_decide_eq_true hd
        have hth : t.head? ≠ some '-' := by
          intro hh
          exact hpair '-' hh ⟨by rw [ha]; rfl, rfl⟩
        rw [iht hth, ha]
      · rw [if_neg hd, ihf]
    · intro hha
      have ha : a ≠ '-' := by
        intro h
        exact hha (by rw [h]; rfl)
      unfold collapseDashRuns
      rw [if_neg (by simp [isDash, ha]), ihf]

theorem dropWhile_isDash_id {l : List Char} (h : l.head? ≠ some '-') :
    l.dropWhile isDash = l := by
  cases l with
  | nil => rfl
  | cons a t =>
    rw [List.dropWhile_cons, if_neg]
    simp only [List.head?_cons, ne_eq] at h
    simp [isDash]
    intro ha
    exact h (by rw [ha])

theorem rstripDash_id : ∀ l : List Char, l.getLast? ≠ some '-' → rstripDash l = l := by
  intro l
  induction l with
  | nil => intro _; rfl
  | cons a t ih =>
    intro hlast
    cases ht : t with
    | nil =>
      subst ht
      have ha : a ≠ '-' := by
        intro h
        exact hlast (by rw [h]; rfl)
      simp [rstripDash, isDash, ha]
    | cons b t' =>
      subst ht
      have hlast' : (b :: t').getLast? ≠ some '-' := by
        rwa [List.getLast?_cons_cons] at hlast
      have hr := ih hlast'
      unfold rstripDash
      rw [hr, if_neg (by simp)]

-- production lemmas: the pipeline output is canonical

theorem collapseDashRuns_noDD :
    ∀ l : List Char, (∀ b, noTwoDashes (collapseDashRuns b l) = true)
      ∧ (collapseDashRuns true l).head? ≠ some '-' := by
  intro l
  induction l with
  | nil => exact ⟨fun _ => rfl, by simp [collapseDashRuns]⟩
  | cons a t ih =>
    rcases ih with ⟨ihdd, ihhead⟩
    constructor
    · intro b
      unfold collapseDashRuns
      by_cases hd : isDash a = true
      · rw [if_pos hd]
        by_cases hb : b = true
        · rw [if_pos hb]
          exact ihdd true
        · rw [if_neg hb]
          refine (noTwoDashes_cons _ _).2 ⟨?_, ihdd true⟩
          intro b' hb' ⟨_, hdb'⟩
          have : b' = '-' := of_decide_eq_true hdb'
          subst this
          exact ihhead hb'
      · rw [if_neg hd]
        refine (noTwoDashes_cons _ _).2 ⟨?_, ihdd false⟩
        intro b' _ ⟨hda, _⟩
        exact hd hda
    · unfold collapseDashRuns
      by_cases hd : isDash a = true
      · rw [if_pos hd, if_pos rfl]
        exact ihhead
      · rw [if_neg hd]
        simp only [List.head?_cons, ne_eq, Option.some.injEq]
        intro ha
        exact hd (by rw [ha]; rfl)

theorem dropWhile_noDD {p : Char → Bool} :
    ∀ l : List Char, noTwoDashes l = true → noTwoDashes (l.dropWhile p) = true := by
  intro l
  induction l with
  | nil => exact fun _ => rfl
  | cons a t ih =>
    intro hdd
    rcases (noTwoDashes_cons a t).1 hdd with ⟨_, htail⟩
    rw [List.dropWhile_cons]
    by_cases hp : p a = true
    · rw [if_pos hp]
      exact ih htail
    · rw [if_neg hp]
      exact hdd

theorem rstripDash_head :
    ∀ l : List Char, rstripDash l = [] ∨ (rstripDash l).head? = l.head? := by
  intro l
  induction l with
  | nil => exact Or.inl rfl
  | cons a t _ =>
    unfold rstripDash
    by_cases he : rstripDash t = []
    · rw [if_pos he]
      by_cases hd : isDash a = true
      · rw [if_pos hd]
        exact Or.inl rfl
      · rw [if_neg hd]
        exact Or.inr rfl
    · rw [if_neg he]
      exact Or.inr rfl

theorem rstripDash_noDD :
    ∀ l : List Char, noTwoDashes l = true → noTwoDashes (rstripDash l) = true := by
  intro l
  induction l with
  | nil => exact fun _ => rfl
  | cons a t ih =>
    intro hdd
    rcases (noTwoDashes_cons a t).1 hdd with ⟨hpair, htail⟩
    unfold rstripDash
    by_cases he : rstripDash t = []
    · rw [if_pos he]
      by_cases hd : isDash a = true
      · rw [if_pos hd]
        rfl
      · rw [if_neg hd]
        rfl
    · rw [if_neg he]
      refine (noTwoDashes_cons _ _).2 ⟨?_, ih htail⟩
      intro b hb
      rcases rstripDash_head t with h | h
      · exact absurd h he
      · rw [h] at hb
        exact hpair b hb

theorem rstripDash_getLast :
    ∀ l : List Char, (rstripDash l).getLast? ≠ some '-' := by
  intro l
  induction l with
  | nil => simp [rstripDash]
  | cons a t ih =>
    unfold rstripDash
    by_cases he : rstripDash t = []
    · rw [if_pos he]
      by_cases hd : isDash a = true
      · rw [if_pos hd]
        simp
      · rw [if_neg hd]
        simp only [List.getLast?_singleton, ne_eq, Option.some.injEq]
        intro ha
        exact hd (by rw [ha]; rfl)
    · rw [if_neg he]
      cases hrt : rstripDash t with
      | nil => exact absurd hrt he
      | cons b t' =>
        rw [List.getLast?_cons_cons]
        rw [hrt] at ih
        exact ih

theorem dropWhile_isDash_head :
    ∀ l : List Char, (l.dropWhile isDash).head? ≠ some '-' := by
  intro l
  induction l with
  | nil => simp
  | cons a t ih =>
    rw [List.dropWhile_cons]
    by_cases hd : isDash a = true
    · rw [if_pos hd]
      exact ih
    · rw [if_neg hd]
      simp only [List.head?_cons, ne_eq, Option.some.injEq]
      intro ha
      exact hd (by rw [ha]; rfl)

-- canonical-form invariants of the slug output

theorem slugChars_mem {l : List Char} {c : Char} (hc : c ∈ slugChars l) :
    keepChar c = true ∧ pyLower c = c := by
  have h0 : c ∈ (collapseDashRuns false (subNonWordRuns false (l.map pyLower))).dropWhile isDash :=
    mem_rstripDash _ hc
  have h1 : c ∈ collapseDashRuns false (subNonWordRuns false (l.map pyLower)) :=
    mem_dropWhile isDash _ h0
  have h2 : c ∈ subNonWordRuns false (l.map pyLower) :=
    mem_collapseDashRuns false _ h1
  rcases mem_subNonWordRuns false _ h2 with h | ⟨hk, hmem⟩
  · subst h
    exact ⟨keepChar_dash, pyLower_dash⟩
  · refine ⟨hk, ?_⟩
    rcases List.mem_map.1 hmem with ⟨a, _, ha⟩
    rw [← ha]
    exact pyLower_idem a

theorem slugChars_noDD (l : List Char) : noTwoDashes (slugChars l) = true :=
  rstripDash_noDD _ (dropWhile_noDD _ ((collapseDashRuns_noDD _).1 false))

theorem slugChars_head (l : List Char) : (slugChars l).head? ≠ some '-' := by
  unfold slugChars stripDash
  rcases rstripDash_head ((collapseDashRuns false
      (subNonWordRuns false (l.map pyLower))).dropWhile isDash) with h | h
  · rw [h]
    simp
  · rw [h]
    exact dropWhile_isDash_head _

theorem slugChars_getLast (l : List Char) : (slugChars l).getLast? ≠ some '-' :=
  rstripDash_getLast _

theorem slugChars_idem (l : List Char) : slugChars (slugChars l) = slugChars l := by
  have hmap : (slugChars l).map pyLower = slugChars l :=
    map_pyLower_id (fun c hc => (slugChars_mem hc).2)
  have hsub : subNonWordRuns false (slugChars l) = slugChars l :=
    subNonWordRuns_id (fun c hc => (slugChars_mem hc).1) false
  have hcol : collapseDashRuns false (slugChars l) = slugChars l :=
    (collapseDashRuns_id _ (slugChars_noDD l)).1
  have hdw : (slugChars l).dropWhile isDash = slugChars l :=
    dropWhile_isDash_id (slugChars_head l)
  have hrs : rstripDash (slugChars l) = slugChars l :=
    rstripDash_id _ (slugChars_getLast l)
  show stripDash (collapseDashRuns false (subNonWordRuns false ((slugChars l).map pyLower)))
    = slugChars l
  rw [hmap, hsub, hcol]
  unfold stripDash
  rw [hdw, hrs]

/-- Claim C9: `slugify` is idempotent — applying it to its own output
changes nothing. -/
theorem claim_C9_slugify_idem (s : String) : slugify (slugify s) = slugify s := by
  unfold slugify
  exact congrArg String.mk (slugChars_idem s.data)

/-- Claim C8 (refuted, code bug): contrary to the claim and to the
function's own docstring ("ASCII only"), `slugify` does not produce
ASCII-only output: Python's `\w` is Unicode-aware, so the Arabic input
"كلميم" passes through unchanged and every character of the output is
non-ASCII. -/
theorem claim_C8_slugify_nonascii_output :
    slugify "كلميم" = "كلميم"
    ∧ ¬(∀ c ∈ (slugify "كلميم").data, c.toNat < 128) := by decide

theorem windowAllDigits_cons_succ {c : Char} {t : List Char} {i : Nat} :
    windowAllDigits (c :: t) (i + 1) ↔ windowAllDigits t i := by
  unfold windowAllDigits
  constructor
  · rintro ⟨hlen, hdig⟩
    refine ⟨by simp at hlen; omega, fun j hj => ?_⟩
    have h := hdig j hj
    rwa [show i + 1 + j = (i + j) + 1 by omega, List.getD_cons_succ] at h
  · rintro ⟨hlen, hdig⟩
    refine ⟨by simp; omega, fun j hj => ?_⟩
    rw [show i + 1 + j = (i + j) + 1 by omega, List.getD_cons_succ]
    exact hdig j hj

theorem windowAllDigits_zero {c1 c2 c3 c4 : Char} {r : List Char} :
    windowAllDigits (c1 :: c2 :: c3 :: c4 :: r) 0 ↔
      (pyIsDigit c1 && pyIsDigit c2 && pyIsDigit c3 && pyIsDigit c4) = true := by
  unfold windowAllDigits
  constructor
  · rintro ⟨_, hdig⟩
    have h0 := hdig 0 (by omega)
    have h1 := hdig 1 (by omega)
    have h2 := hdig 2 (by omega)
    have h3 := hdig 3 (by omega)
    simp only [List.getD_cons_zero, List.getD_cons_succ, Nat.zero_add] at h0 h1 h2 h3
    simp [h0, h1, h2, h3]
  · intro h
    simp only [Bool.and_eq_true] at h
    refine ⟨by simp, fun j hj => ?_⟩
    interval_cases j <;>
      simp only [List.getD_cons_zero, List.getD_cons_succ, Nat.zero_add] <;>
      simp [h.1.1.1, h.1.1.2, h.1.2, h.2]

theorem yearRun_eq_none :
    ∀ l : List Char, (∀ i, ¬ windowAllDigits l i) → yearRun l = none := by
  intro l
  induction l with
  | nil => intro _; rfl
  | cons c1 t ih =>
    intro hno
    match t with
    | [] => rfl
    | [c2] => rfl
    | [c2, c3] => rfl
    | c2 :: c3 :: c4 :: r =>
      have h0 : ¬ (pyIsDigit c1 && pyIsDigit c2 && pyIsDigit c3 && pyIsDigit c4) = true := by
        intro h
        exact hno 0 (windowAllDigits_zero.2 h)
      unfold yearRun
      show (if (pyIsDigit c1 && pyIsDigit c2 && pyIsDigit c3 && pyIsDigit c4) = true
        then some [c1, c2, c3, c4] else yearRun (c2 :: c3 :: c4 :: r)) = none
      rw [if_neg h0]
      exact ih (fun i hi => hno (i + 1) (windowAllDigits_cons_succ.2 hi))

theorem yearRun_first :
    ∀ (l : List Char) (i : Nat), windowAllDigits l i →
      (∀ j, j < i → ¬ windowAllDigits l j) →
      yearRun l = some ((l.drop i).take 4) := by
  intro l
  induction l with
  | nil =>
    intro i hw _
    rcases hw with ⟨hlen, _⟩
    simp at hlen
  | cons c1 t ih =>
    intro i hw hmin
    match ht : t with
    | [] =>
      rcases hw with ⟨hlen, _⟩
      simp at hlen
    | [c2] =>
      rcases hw with ⟨hlen, _⟩
      simp at hlen
    | [c2, c3] =>
      rcases hw with ⟨hlen, _⟩
      simp at hlen
    | c2 :: c3 :: c4 :: r =>
      by_cases h0 : (pyIsDigit c1 && pyIsDigit c2 && pyIsDigit c3 && pyIsDigit c4) = true
      · have hi0 : i = 0 := by
          by_contra hne
          exact hmin 0 (by omega) (windowAllDigits_zero.2 h0)
        subst hi0
        unfold yearRun
        show (if (pyIsDigit c1 && pyIsDigit c2 && pyIsDigit c3 && pyIsDigit c4) = true
          then some [c1, c2, c3, c4] else yearRun (c2 :: c3 :: c4 :: r)) =
          some (((c1 :: c2 :: c3 :: c4 :: r).drop 0).take 4)
        rw [if_pos h0]
        rfl
      · have hi : i ≠ 0 := by
          intro h
          subst h
          exact h0 (windowAllDigits_zero.1 hw)
        obtain ⟨i', rfl⟩ : ∃ i', i = i' + 1 := ⟨i - 1, by omega⟩
        unfold yearRun
        show (if (pyIsDigit c1 && pyIsDigit c2 && pyIsDigit c3 && pyIsDigit c4) = true
          then some [c1, c2, c3, c4] else yearRun (c2 :: c3 :: c4 :: r)) =
          some (((c1 :: c2 :: c3 :: c4 :: r).drop (i' + 1)).take 4)
        rw [if_neg h0]
        rw [List.drop_succ_cons]
        exact ih i' (windowAllDigits_cons_succ.1 hw)
          (fun j hj => fun hwj => hmin (j + 1) (by omega) (windowAllDigits_cons_succ.2 hwj))

/-- Claim C5: for every PDF link processed by the Commune budgets extractor,
the record's `year` field is the first (leftmost) run of 4 consecutive
digits in the resolved URL text, and `"unknown"` when the URL has no
4-digit run.  In particular the link "/ar/budget-2019-final.pdf" yields a
record with year "2019", and a link without a digit run yields "unknown". -/
theorem claim_C5_budget_year (output_dir : String) (fetch : String → Option (List Nat))
    (st : Store) (bs1 bs2 : List Nat)
    (hf1 : fetch "https://communeguelmim.ma/ar/budget-2019-final.pdf" = some bs1)
    (hf2 : fetch "https://communeguelmim.ma/ar/rapport-annuel.pdf" = some bs2) :
    (∀ url : String, (∀ i, ¬ windowAllDigits url.data i) → yearOf url = "unknown")
    ∧ (∀ (url : String) (i : Nat), windowAllDigits url.data i →
        (∀ j, j < i → ¬ windowAllDigits url.data j) →
        yearOf url = String.mk ((url.data.drop i).take 4))
    ∧ (scrape_budgets output_dir fetch ["/ar/budget-2019-final.pdf"] st).2 =
        .ok [[("year", "2019"),
              ("source_url", "https://communeguelmim.ma/ar/budget-2019-final.pdf"),
              ("sha1", sha1hex bs1), ("file", contentRel "commune/budgets" bs1)]]
    ∧ (scrape_budgets output_dir fetch ["/ar/rapport-annuel.pdf"] st).2 =
        .ok [[("year", "unknown"),
              ("source_url", "https://communeguelmim.ma/ar/rapport-annuel.pdf"),
              ("sha1", sha1hex bs2), ("file", contentRel "commune/budgets" bs2)]] := by
  refine ⟨?_, ?_, ?_, ?_⟩
  · intro url h
    unfold yearOf
    rw [yearRun_eq_none url.data h]
  · intro url i hw hmin
    unfold yearOf
    rw [yearRun_first url.data i hw hmin]
  · have hres : resolveHref communeBASE "/ar/budget-2019-final.pdf" =
        "https://communeguelmim.ma/ar/budget-2019-final.pdf" := by decide
    have hyear : yearOf "https://communeguelmim.ma/ar/budget-2019-final.pdf" = "2019" := by
      decide
    simp only [scrape_budgets, budgetsGo, hres, hyear, hf1, List.nil_append]
  · have hres : resolveHref communeBASE "/ar/rapport-annuel.pdf" =
        "https://communeguelmim.ma/ar/rapport-annuel.pdf" := by decide
    have hyear : yearOf "https://communeguelmim.ma/ar/rapport-annuel.pdf" = "unknown" := by
      decide
    simp only [scrape_budgets, budgetsGo, hres, hyear, hf2, List.nil_append]

/-- Witness for C5 at a concrete fetch dependency and payloads. -/
theorem claim_C5_budget_year_witness :
    (scrape_budgets "data"
        (fun u => if u = "https://communeguelmim.ma/ar/budget-2019-final.pdf"
                  then some [9] else some [8])
        ["/ar/budget-2019-final.pdf"] emptyStore).2 =
      .ok [[("year", "2019"),
            ("source_url", "https://communeguelmim.ma/ar/budget-2019-final.pdf"),
            ("sha1", sha1hex [9]), ("file", contentRel "commune/budgets" [9])]]
    ∧ (scrape_budgets "data"
        (fun u => if u = "https://communeguelmim.ma/ar/budget-2019-final.pdf"
                  then some [9] else some [8])
        ["/ar/rapport-annuel.pdf"] emptyStore).2 =
      .ok [[("year", "unknown"),
            ("source_url", "https://communeguelmim.ma/ar/rapport-annuel.pdf"),
            ("sha1", sha1hex [8]), ("file", contentRel "commune/budgets" [8])]] := by
  have h := claim_C5_budget_year "data"
    (fun u => if u = "https://communeguelmim.ma/ar/budget-2019-final.pdf"
              then some [9] else some [8])
    emptyStore [9] [8] (by decide) (by decide)
  exact ⟨h.2.2.1, h.2.2.2⟩

theorem stringData_inj {s t : String} (h : s.data = t.data) : s = t := by
  cases s
  cases t
  exact congrArg String.mk h

theorem path_eq_digest_eq {output_dir cat : String} {b1 b2 : List Nat}
    (h : output_dir ++ "/" ++ contentRel cat b1 = output_dir ++ "/" ++ contentRel cat b2) :
    sha1hex b1 = sha1hex b2 := by
  have hd := congrArg String.data h
  simp only [contentRel, String.data_append, List.append_assoc] at hd
  have h1 := List.append_cancel_left hd
  have h2 := List.append_cancel_left h1
  have h3 := List.append_cancel_left h2
  have h4 := List.append_cancel_left h3
  exact stringData_inj (List.append_cancel_right h4)

theorem minutesGo_fail (output_dir : String) (fetch : String → Option (List Nat)) :
    ∀ (k : Nat) (bytesOf : Nat → List Nat) (links : List (String × String))
      (index : List (List (String × String))) (st : Store),
      k < links.length →
      (∀ j, j < k →
        fetch (resolveHref communeBASE (links.getD j ("", "")).1) = some (bytesOf j)) →
      fetch (resolveHref communeBASE (links.getD k ("", "")).1) = none →
      (∀ i j, i < k → j < k → sha1hex (bytesOf i) = sha1hex (bytesOf j) →
        bytesOf i = bytesOf j) →
      ∃ e st',
        minutesGo output_dir fetch links index st = (st', .error e)
        ∧ (∀ j, j < k →
            st'.bin (output_dir ++ "/" ++ contentRel "commune/minutes" (bytesOf j)) =
              some (bytesOf j))
        ∧ (∀ p, (∀ j, j < k →
              p ≠ output_dir ++ "/" ++ contentRel "commune/minutes" (bytesOf j)) →
            st'.bin p = st.bin p)
        ∧ st'.txt = st.txt := by
  intro k
  induction k with
  | zero =>
    intro bytesOf links index st hk hsucc hfail _
    match links with
    | [] => simp at hk
    | (href, title) :: rest =>
      rw [List.getD_cons_zero] at hfail
      refine ⟨"Failed to fetch " ++ resolveHref communeBASE href ++ " after 3 attempts",
        st, ?_, ?_, ?_, rfl⟩
      · simp only [minutesGo, hfail]
      · intro j hj
        omega
      · intro p _
        rfl
  | succ k ih =>
    intro bytesOf links index st hk hsucc hfail hcf
    match links with
    | [] => simp at hk
    | (href, title) :: rest =>
      have hs0 : fetch (resolveHref communeBASE href) = some (bytesOf 0) := by
        have := hsucc 0 (by omega)
        rwa [List.getD_cons_zero] at this
      have hk' : k < rest.length := by
        simp only [List.length_cons] at hk
        omega
      have hsucc' : ∀ j, j < k →
          fetch (resolveHref communeBASE (rest.getD j ("", "")).1) =
            some (bytesOf (j + 1)) := by
        intro j hj
        have := hsucc (j + 1) (by omega)
        rwa [List.getD_cons_succ] at this
      have hfail' : fetch (resolveHref communeBASE (rest.getD k ("", "")).1) = none := by
        rwa [List.getD_cons_succ] at hfail
      have hcf' : ∀ i j, i < k → j < k →
          sha1hex (bytesOf (i + 1)) = sha1hex (bytesOf (j + 1)) →
          bytesOf (i + 1) = bytesOf (j + 1) := by
        intro i j hi hj
        exact hcf (i + 1) (j + 1) (by omega) (by omega)
      obtain ⟨e, st', heq, hbins, hframe, htxt⟩ :=
        ih (fun j => bytesOf (j + 1)) rest
          (index ++ [[("title", title), ("source_url", resolveHref communeBASE href),
                      ("sha1", sha1hex (bytesOf 0)),
                      ("file", contentRel "commune/minutes" (bytesOf 0))]])
          (save_binary st output_dir (contentRel "commune/minutes" (bytesOf 0))
            (bytesOf 0)).1
          hk' hsucc' hfail' hcf'
      refine ⟨e, st', ?_, ?_, ?_, ?_⟩
      · simp only [minutesGo, hs0]
        exact heq
      · intro j hj
        match j with
        | 0 =>
          by_cases hex : ∃ j', j' < k ∧
              output_dir ++ "/" ++ contentRel "commune/minutes" (bytesOf 0) =
                output_dir ++ "/" ++ contentRel "commune/minutes" (bytesOf (j' + 1))
          · obtain ⟨j', hj', hpeq⟩ := hex
            have hdig : sha1hex (bytesOf 0) = sha1hex (bytesOf (j' + 1)) :=
              path_eq_digest_eq hpeq
            have hbeq : bytesOf 0 = bytesOf (j' + 1) :=
              hcf 0 (j' + 1) (by omega) (by omega) hdig
            have := hbins j' hj'
            rw [← hpeq] at this
            rw [this, ← hbeq]
          · push_neg at hex
            have hfr := hframe
              (output_dir ++ "/" ++ contentRel "commune/minutes" (bytesOf 0))
              (fun j' hj' => hex j' hj')
            rw [hfr]
            simp [save_binary, writeBin]
        | j'' + 1 =>
          exact hbins j'' (by omega)
      · intro p hp
        have hfr := hframe p (fun j hj => hp (j + 1) (by omega))
        rw [hfr]
        simp only [save_binary, writeBin]
        rw [if_neg (hp 0 (by omega))]
      · rw [htxt]
        rfl

/-- Claim C7: if a fatal fetch failure occurs while processing the `k`-th
document of the minutes loop (earlier fetches succeeded, and — as the spec
assumes of the digest — the earlier payloads are collision-free), the run
fails, the binaries of the documents processed before the failure are in the
store (they are written one per loop iteration), but no text file — in
particular not the minutes index — has been written: the already-collected
records are lost. -/
theorem claim_C7_failure_loses_index (output_dir : String)
    (fetch : String → Option (List Nat)) (links : List (String × String))
    (st : Store) (k : Nat) (bytesOf : Nat → List Nat)
    (hk : k < links.length)
    (hsucc : ∀ j, j < k →
      fetch (resolveHref communeBASE (links.getD j ("", "")).1) = some (bytesOf j))
    (hfail : fetch (resolveHref communeBASE (links.getD k ("", "")).1) = none)
    (hcf : ∀ i j, i < k → j < k → sha1hex (bytesOf i) = sha1hex (bytesOf j) →
      bytesOf i = bytesOf j) :
    ∃ e st',
      scrape_minutes output_dir fetch links st = (st', .error e)
      ∧ (∀ j, j < k →
          st'.bin (output_dir ++ "/" ++ contentRel "commune/minutes" (bytesOf j)) =
            some (bytesOf j))
      ∧ st'.txt = st.txt := by
  obtain ⟨e, st', heq, hbins, _, htxt⟩ :=
    minutesGo_fail output_dir fetch k bytesOf links [] st hk hsucc hfail hcf
  exact ⟨e, st', heq, hbins, htxt⟩

/-- Witness for C7: two links, the first PDF downloads, the second exhausts
its retries. -/
theorem claim_C7_failure_loses_index_witness :
    ∃ e st',
      scrape_minutes "data"
          (fun u => if u = "https://communeguelmim.ma/a.pdf" then some [1] else none)
          [("/a.pdf", "t1"), ("/b.pdf", "t2")] emptyStore = (st', .error e)
      ∧ (∀ j, j < 1 →
          st'.bin ("data" ++ "/" ++ contentRel "commune/minutes" [1]) = some [1])
      ∧ st'.txt = emptyStore.txt := by
  have h := claim_C7_failure_loses_index "data"
    (fun u => if u = "https://communeguelmim.ma/a.pdf" then some [1] else none)
    [("/a.pdf", "t1"), ("/b.pdf", "t2")] emptyStore 1 (fun _ => [1])
    (by decide) (by decide) (by decide) (fun i j _ _ _ => rfl)
  obtain ⟨e, st', heq, hbins, htxt⟩ := h
  exact ⟨e, st', heq, fun j hj => hbins 0 (by omega), htxt⟩

theorem parliamentGo_ok (constituency : String)
    (fetchProfile : String → Option (Option String)) :
    ∀ (cards : List PCard) (idx : List (List (String × String))),
      (∀ c ∈ cards, pyContains c.text constituency = true → c.anchor ≠ none) →
      (∀ u, fetchProfile u ≠ none) →
      ∃ recs, parliamentGo constituency fetchProfile cards idx = .ok (idx ++ recs)
        ∧ recs.length = cards.countP (fun c => pyContains c.text constituency) := by
  intro cards
  induction cards with
  | nil =>
    intro idx _ _
    exact ⟨[], by simp [parliamentGo], by simp⟩
  | cons c rest ih =>
    intro idx hanchor hfetch
    by_cases hm : pyContains c.text constituency = true
    · match hc : c.anchor with
      | none => exact absurd hc (hanchor c (List.mem_cons_self _ _) hm)
      | some (href, linkText) =>
        match hp : fetchProfile (parliamentBASE ++ href) with
        | none => exact absurd hp (hfetch _)
        | some partyField =>
          obtain ⟨recs', heq, hlen⟩ :=
            ih (idx ++ [[("name", linkText), ("party", partyField.getD ""),
                         ("constituency", constituency),
                         ("profile_url", parliamentBASE ++ href)]])
              (fun c' hc' => hanchor c' (List.mem_cons_of_mem _ hc'))
              hfetch
          refine ⟨[("name", linkText), ("party", partyField.getD ""),
                   ("constituency", constituency),
                   ("profile_url", parliamentBASE ++ href)] :: recs', ?_, ?_⟩
          · simp only [parliamentGo, hm, if_true, hc, hp]
            rw [heq]
            simp
          · rw [List.length_cons, hlen,
              List.countP_cons_of_pos (fun c => pyContains c.text constituency) rest
                (by exact hm)]
    · obtain ⟨recs', heq, hlen⟩ :=
        ih idx (fun c' hc' => hanchor c' (List.mem_cons_of_mem _ hc')) hfetch
      refine ⟨recs', ?_, ?_⟩
      · simp only [parliamentGo, hm, if_false]
        exact heq
      · rw [hlen,
          List.countP_cons_of_neg (fun c => pyContains c.text constituency) rest
            (by simp [hm])]

theorem parliamentGo_no_match (constituency : String)
    (fetchProfile : String → Option (Option String)) :
    ∀ (cards : List PCard) (idx : List (List (String × String))),
      (∀ c ∈ cards, pyContains c.text constituency = false) →
      parliamentGo constituency fetchProfile cards idx = .ok idx := by
  intro cards
  induction cards with
  | nil => intro idx _; rfl
  | cons c rest ih =>
    intro idx hnone
    have hm : pyContains c.text constituency = false := hnone c (List.mem_cons_self _ _)
    simp only [parliamentGo, hm, if_false]
    exact ih idx (fun c' hc' => hnone c' (List.mem_cons_of_mem _ hc'))

/-- Claim C6: under the structural assumptions the code itself makes (every
matching card has a profile link, profile fetches succeed), the parliament
extractor emits exactly one record per card whose rendered text contains the
constituency substring; the record count is invariant under reordering of
the cards; and when no card matches, it completes successfully and writes an
index with zero records. -/
theorem claim_C6_parliament_containment (constituency : String) (cards : List PCard)
    (fetchProfile : String → Option (Option String)) (st : Store) (output_dir : String) :
    ((∀ c ∈ cards, pyContains c.text constituency = true → c.anchor ≠ none) →
     (∀ u, fetchProfile u ≠ none) →
     ∃ recs, parliamentRun constituency cards fetchProfile st output_dir =
         (writeTxt st (output_dir ++ "/" ++ "parliament/members.json") (serIndex recs),
          .ok recs)
       ∧ recs.length = cards.countP (fun c => pyContains c.text constituency))
    ∧ ((∀ c ∈ cards, pyContains c.text constituency = false) →
       parliamentRun constituency cards fetchProfile st output_dir =
         (writeTxt st (output_dir ++ "/" ++ "parliament/members.json") (serIndex []),
          .ok []))
    ∧ (∀ cards' : List PCard, cards.Perm cards' →
        cards.countP (fun c => pyContains c.text constituency) =
          cards'.countP (fun c => pyContains c.text constituency)) := by
  refine ⟨?_, ?_, ?_⟩
  · intro hanchor hfetch
    obtain ⟨recs, heq, hlen⟩ := parliamentGo_ok constituency fetchProfile cards [] hanchor hfetch
    rw [List.nil_append] at heq
    exact ⟨recs, by simp only [parliamentRun, heq, save_json], hlen⟩
  · intro hnone
    have hgo : parliamentGo constituency fetchProfile cards [] = .ok [] :=
      parliamentGo_no_match constituency fetchProfile cards [] hnone
    simp only [parliamentRun, hgo, save_json]
  · intro cards' hperm
    exact hperm.countP_eq _

/-- Witness for C6: a listing of 3 cards of which exactly one contains the
constituency substring yields exactly one record. -/
theorem claim_C6_parliament_containment_witness :
    ∃ recs, parliamentRun "X"
        [⟨"aXb", some ("/m1", "Alice")⟩, ⟨"cd", some ("/m2", "Bob")⟩, ⟨"ef", none⟩]
        (fun _ => some (some "P")) emptyStore "data" =
        (writeTxt emptyStore ("data" ++ "/" ++ "parliament/members.json") (serIndex recs),
         .ok recs)
      ∧ recs.length = 1 := by
  obtain ⟨recs, heq, hlen⟩ := (claim_C6_parliament_containment "X"
      [⟨"aXb", some ("/m1", "Alice")⟩, ⟨"cd", some ("/m2", "Bob")⟩, ⟨"ef", none⟩]
      (fun _ => some (some "P")) emptyStore "data").1
    (by decide) (fun u h => Option.noConfusion h)
  refine ⟨recs, heq, ?_⟩
  rw [hlen]
  decide

theorem hexVal_hexDigitChar (n : Nat) (h : n < 16) :
    hexVal (hexDigitChar n) = some n := by
  interval_cases n <;> decide

theorem escStr_length (s : List Char) : s.length ≤ (escStr s).length := by
  induction s with
  | nil => simp [escStr]
  | cons c t ih =>
    have hc : 1 ≤ (escChar c).length := by
      unfold escChar
      split_ifs <;> simp
    simp only [escStr, List.length_cons, List.length_append]
    omega

theorem stringMk_data (s : String) : String.mk s.data = s := by
  cases s
  rfl

theorem pJsonStr_rt : ∀ (s : List Char) (fuel : Nat) (rest : List Char),
    s.length < fuel →
    pJsonStr fuel (escStr s ++ '"' :: rest) = some (s, rest) := by
  intro s
  induction s with
  | nil =>
    intro fuel rest hf
    obtain ⟨f, rfl⟩ : ∃ f, fuel = f + 1 := ⟨fuel - 1, by omega⟩
    simp [escStr, pJsonStr]
  | cons c t ih =>
    intro fuel rest hf
    obtain ⟨f, rfl⟩ : ∃ f, fuel = f + 1 := ⟨fuel - 1, by omega⟩
    have hf' : t.length < f := by
      simp only [List.length_cons] at hf
      omega
    have iht := ih f rest hf'
    show pJsonStr (f + 1) (escStr (c :: t) ++ '"' :: rest) = some (c :: t, rest)
    rw [show escStr (c :: t) = escChar c ++ escStr t from rfl, List.append_assoc]
    by_cases h1 : c = '"'
    · subst h1
      rw [show escChar '"' = ['\\', '"'] from by decide]
      simp [pJsonStr, unescChar, iht]
    · by_cases h2 : c = '\\'
      · subst h2
        rw [show escChar '\\' = ['\\', '\\'] from by decide]
        simp [pJsonStr, unescChar, iht]
      · by_cases h3 : c = '\n'
        · subst h3
          rw [show escChar '\n' = ['\\', 'n'] from by decide]
          simp [pJsonStr, unescChar, iht]
        · by_cases h4 : c = '\t'
          · subst h4
            rw [show escChar '\t' = ['\\', 't'] from by decide]
            simp [pJsonStr, unescChar, iht]
          · by_cases h5 : c = '\r'
            · subst h5
              rw [show escChar '\r' = ['\\', 'r'] from by decide]
              simp [pJsonStr, unescChar, iht]
            · by_cases h6 : c = Char.ofNat 8
              · subst h6
                rw [show escChar (Char.ofNat 8) = ['\\', 'b'] from by decide]
                simp [pJsonStr, unescChar, iht]
              · by_cases h7 : c = Char.ofNat 12
                · subst h7
                  rw [show escChar (Char.ofNat 12) = ['\\', 'f'] from by decide]
                  simp [pJsonStr, unescChar, iht]
                · by_cases h8 : c.toNat < 32
                  · rw [show escChar c =
                        ['\\', 'u', '0', '0', hexDigitChar (c.toNat / 16),
                         hexDigitChar (c.toNat % 16)] from by
                      unfold escChar
                      rw [if_neg h1, if_neg h2, if_neg h3, if_neg h4, if_neg h5,
                        if_neg h6, if_neg h7, if_pos h8]]
                    have hdiv : hexVal (hexDigitChar (c.toNat / 16)) = some (c.toNat / 16) :=
                      hexVal_hexDigitChar _ (by omega)
                    have hmod : hexVal (hexDigitChar (c.toNat % 16)) = some (c.toNat % 16) :=
                      hexVal_hexDigitChar _ (by omega)
                    have hzero : hexVal '0' = some 0 := by decide
                    simp [pJsonStr, hzero, hdiv, hmod, iht]
                    rw [show c.toNat / 16 * 16 + c.toNat % 16 = c.toNat from by omega,
                      Char.ofNat_toNat]
                  · rw [show escChar c = [c] from by
                      unfold escChar
                      rw [if_neg h1, if_neg h2, if_neg h3, if_neg h4, if_neg h5,
                        if_neg h6, if_neg h7, if_neg h8]]
                    simp [pJsonStr, h1, h2, iht]

theorem serMembers_length (r : List (String × String)) :
    r.length ≤ (serMembers r).length := by
  induction r with
  | nil => simp [serMembers]
  | cons kv rest ih =>
    cases rest with
    | nil => simp [serMembers, serMember]
    | cons kv2 rest2 =>
      simp only [serMembers, List.length_append, List.length_cons]
      have h4 : 4 ≤ (serMember kv).length := by
        simp [serMember]
      simp only [List.length_cons] at ih
      omega

theorem isJsonWs_nl : isJsonWs '\n' = true := by decide

theorem isJsonWs_sp : isJsonWs ' ' = true := by decide

theorem isJsonWs_quote : isJsonWs '"' = false := by decide

theorem isJsonWs_colon : isJsonWs ':' = false := by decide

theorem isJsonWs_comma : isJsonWs ',' = false := by decide

theorem isJsonWs_rb : isJsonWs rbrace = false := by decide

theorem isJsonWs_lb : isJsonWs lbrace = false := by decide

theorem isJsonWs_rbk : isJsonWs ']' = false := by decide

theorem isJsonWs_lbk : isJsonWs '[' = false := by decide

theorem quote_ne_rbrace : ¬(('"' : Char) = rbrace) := by decide

theorem rbrace_ne_comma : ¬(rbrace = ',') := by decide

theorem lbrace_ne_rbracket : ¬(lbrace = (']' : Char)) := by decide

theorem rbracket_ne_comma : ¬((']' : Char) = ',') := by decide

theorem pJsonObj_rt : ∀ (r : List (String × String)), r ≠ [] →
    ∀ (fuel : Nat) (rest : List Char), r.length < fuel →
    pJsonObj fuel ('\n' :: (serMembers r ++ '\n' :: ' ' :: ' ' :: rbrace :: rest)) =
      some (r, rest) := by
  intro r
  induction r with
  | nil => intro h; exact absurd rfl h
  | cons kv r' ih =>
    intro _ fuel rest hf
    obtain ⟨f, rfl⟩ : ∃ f, fuel = f + 1 := ⟨fuel - 1, by omega⟩
    obtain ⟨k, v⟩ := kv
    have hkey : ∀ Y : List Char,
        pJsonStr ((escStr k.data ++ '"' :: Y).length + 1) (escStr k.data ++ '"' :: Y) =
          some (k.data, Y) := by
      intro Y
      refine pJsonStr_rt k.data _ Y ?_
      have := escStr_length k.data
      simp only [List.length_append, List.length_cons]
      omega
    have hval : ∀ Y : List Char,
        pJsonStr ((escStr v.data ++ '"' :: Y).length + 1) (escStr v.data ++ '"' :: Y) =
          some (v.data, Y) := by
      intro Y
      refine pJsonStr_rt v.data _ Y ?_
      have := escStr_length v.data
      simp only [List.length_append, List.length_cons]
      omega
    cases r' with
    | nil =>
      simp only [pJsonObj, serMembers, serMember, serStr, List.cons_append,
        List.append_assoc, List.singleton_append, List.nil_append, skipWs,
        List.dropWhile_cons, isJsonWs_nl, isJsonWs_sp, isJsonWs_quote, isJsonWs_colon,
        isJsonWs_comma, isJsonWs_rb, quote_ne_rbrace, rbrace_ne_comma,
        if_true, if_false, eq_self_iff_true, Bool.false_eq_true, hkey, hval,
        stringMk_data]
    | cons kv2 r'' =>
      have ihx := ih (by simp) f rest (by
        simp only [List.length_cons] at hf ⊢
        omega)
      simp only [pJsonObj, serMembers, serMember, serStr, List.cons_append,
        List.append_assoc, List.singleton_append, List.nil_append, skipWs,
        List.dropWhile_cons, isJsonWs_nl, isJsonWs_sp, isJsonWs_quote, isJsonWs_colon,
        isJsonWs_comma, isJsonWs_rb, quote_ne_rbrace, rbrace_ne_comma,
        if_true, if_false, eq_self_iff_true, Bool.false_eq_true, hkey, hval,
        stringMk_data]
      simp only [skipWs] at ihx
      rw [ihx]

theorem serRecord_length (r : List (String × String)) : 2 ≤ (serRecord r).length := by
  unfold serRecord
  split_ifs <;> simp

theorem serItems_length (rs : List (List (String × String))) :
    rs.length ≤ (serItems rs).length := by
  induction rs with
  | nil => simp [serItems]
  | cons r rest ih =>
    cases rest with
    | nil =>
      simp only [serItems, List.length_cons, List.length_nil]
      have := serRecord_length r
      omega
    | cons r2 rest2 =>
      simp only [serItems, List.length_append, List.length_cons]
      have := serRecord_length r
      simp only [List.length_cons] at ih
      omega

theorem serRecord_ne_nil (r : List (String × String)) (hr : r ≠ []) :
    serRecord r = lbrace :: '\n' :: (serMembers r ++ '\n' :: ' ' :: ' ' :: [rbrace]) := by
  unfold serRecord
  rw [if_neg]
  simp [hr]

theorem pJsonArr_rt : ∀ (rs : List (List (String × String))), rs ≠ [] →
    ∀ (fuel : Nat) (rest : List Char), rs.length < fuel →
    pJsonArr fuel ('\n' :: (serItems rs ++ '\n' :: ']' :: rest)) = some (rs, rest) := by
  intro rs
  induction rs with
  | nil => intro h; exact absurd rfl h
  | cons r rs' ih =>
    intro _ fuel rest hf
    obtain ⟨f, rfl⟩ : ∃ f, fuel = f + 1 := ⟨fuel - 1, by omega⟩
    have hobj : ∀ Y : List Char, r ≠ [] →
        pJsonObj (('\n' :: (serMembers r ++ '\n' :: ' ' :: ' ' :: rbrace :: Y)).length + 1)
          ('\n' :: (serMembers r ++ '\n' :: ' ' :: ' ' :: rbrace :: Y)) = some (r, Y) := by
      intro Y hr
      refine pJsonObj_rt r hr _ Y ?_
      have := serMembers_length r
      simp only [List.length_cons, List.length_append]
      omega
    cases rs' with
    | nil =>
      by_cases hr : r = []
      · subst hr
        simp only [serItems, serRecord, List.isEmpty_nil, if_true, pJsonArr, pJsonObj,
          List.cons_append, List.append_assoc, List.singleton_append, List.nil_append,
          skipWs, List.dropWhile_cons, isJsonWs_nl, isJsonWs_sp, isJsonWs_lb, isJsonWs_rb,
          isJsonWs_rbk, lbrace_ne_rbracket, rbracket_ne_comma, rbrace_ne_comma,
          if_false, eq_self_iff_true, Bool.false_eq_true]
      · have hrec := hobj ('\n' :: ']' :: rest) hr
        simp only [serItems, serRecord_ne_nil r hr, pJsonArr,
          List.cons_append, List.append_assoc, List.singleton_append, List.nil_append,
          skipWs, List.dropWhile_cons, isJsonWs_nl, isJsonWs_sp, isJsonWs_lb,
          isJsonWs_rbk, lbrace_ne_rbracket, rbracket_ne_comma,
          if_true, if_false, eq_self_iff_true, Bool.false_eq_true] at hrec ⊢
        rw [hrec]
        simp only [skipWs, List.dropWhile_cons, isJsonWs_nl, isJsonWs_rbk,
          rbracket_ne_comma, if_true, if_false, eq_self_iff_true, Bool.false_eq_true]
    | cons r2 rs'' =>
      have ihx := ih (by simp) f rest (by
        simp only [List.length_cons] at hf ⊢
        omega)
      by_cases hr : r = []
      · subst hr
        simp only [serItems, serRecord, List.isEmpty_nil, if_true, pJsonArr, pJsonObj,
          List.cons_append, List.append_assoc, List.singleton_append, List.nil_append,
          skipWs, List.dropWhile_cons, isJsonWs_nl, isJsonWs_sp, isJsonWs_lb, isJsonWs_rb,
          isJsonWs_rbk, isJsonWs_comma, lbrace_ne_rbracket, rbracket_ne_comma,
          rbrace_ne_comma, if_false, eq_self_iff_true, Bool.false_eq_true]
        rw [ihx]
      · have hrec := hobj (',' :: '\n' :: (serItems (r2 :: rs'') ++ '\n' :: ']' :: rest)) hr
        simp only [serItems, serRecord_ne_nil r hr, pJsonArr,
          List.cons_append, List.append_assoc, List.singleton_append, List.nil_append,
          skipWs, List.dropWhile_cons, isJsonWs_nl, isJsonWs_sp, isJsonWs_lb,
          isJsonWs_rbk, isJsonWs_comma, lbrace_ne_rbracket, rbracket_ne_comma,
          if_true, if_false, eq_self_iff_true, Bool.false_eq_true] at hrec ⊢
        rw [hrec]
        simp only [skipWs, List.dropWhile_cons, isJsonWs_comma, eq_self_iff_true,
          if_true, if_false, Bool.false_eq_true]
        rw [ihx]

theorem parseJsonIndex_serIndex (records : List (List (String × String))) :
    parseJsonIndex (serIndex records) = some records := by
  cases records with
  | nil => rfl
  | cons r rs =>
    have harr := pJsonArr_rt (r :: rs) (by simp)
      (('\n' :: (serItems (r :: rs) ++ '\n' :: ']' :: [])).length + 1) []
      (by
        have hlen := serItems_length (r :: rs)
        simp only [List.length_cons, List.length_append] at hlen ⊢
        omega)
    have hchars : serIndexChars (r :: rs) =
        '[' :: '\n' :: (serItems (r :: rs) ++ '\n' :: [']']) := by
      unfold serIndexChars
      rw [if_neg (by simp)]
    simp only [parseJsonIndex, serIndex, hchars, skipWs, List.dropWhile_cons,
      List.dropWhile_nil, isJsonWs_lbk, Bool.false_eq_true, if_false, harr,
      List.isEmpty_nil, if_true, eq_self_iff_true]

theorem mem_escStr_of_nonascii {c : Char} (h : 128 ≤ c.toNat) :
    ∀ s : List Char, c ∈ s → c ∈ escStr s := by
  intro s
  induction s with
  | nil => simp
  | cons a t ih =>
    intro hc
    rcases List.mem_cons.1 hc with h1 | h1
    · subst h1
      have e1 : ¬(c = '"') := fun he => absurd (he ▸ h) (by decide)
      have e2 : ¬(c = '\\') := fun he => absurd (he ▸ h) (by decide)
      have e3 : ¬(c = '\n') := fun he => absurd (he ▸ h) (by decide)
      have e4 : ¬(c = '\t') := fun he => absurd (he ▸ h) (by decide)
      have e5 : ¬(c = '\r') := fun he => absurd (he ▸ h) (by decide)
      have e6 : ¬(c = Char.ofNat 8) := fun he => absurd (he ▸ h) (by decide)
      have e7 : ¬(c = Char.ofNat 12) := fun he => absurd (he ▸ h) (by decide)
      have e8 : ¬(c.toNat < 32) := by omega
      have he : escChar c = [c] := by
        unfold escChar
        rw [if_neg e1, if_neg e2, if_neg e3, if_neg e4, if_neg e5, if_neg e6,
          if_neg e7, if_neg e8]
      show c ∈ escStr (c :: t)
      rw [show escStr (c :: t) = escChar c ++ escStr t from rfl, he]
      exact List.mem_append_left _ (List.mem_singleton.2 rfl)
    · rw [show escStr (a :: t) = escChar a ++ escStr t from rfl]
      exact List.mem_append_right _ (ih h1)

theorem mem_serStr_of_nonascii {c : Char} {s : String} (h : 128 ≤ c.toNat)
    (hc : c ∈ s.data) : c ∈ serStr s := by
  unfold serStr
  exact List.mem_cons_of_mem _ (List.mem_append_left _ (mem_escStr_of_nonascii h _ hc))

theorem mem_serMember_of_nonascii {c : Char} {kv : String × String} (h : 128 ≤ c.toNat)
    (hc : c ∈ kv.1.data ∨ c ∈ kv.2.data) : c ∈ serMember kv := by
  unfold serMember
  refine List.mem_cons_of_mem _ (List.mem_cons_of_mem _ (List.mem_cons_of_mem _
    (List.mem_cons_of_mem _ ?_)))
  rcases hc with hc | hc
  · exact List.mem_append_left _ (mem_serStr_of_nonascii h hc)
  · exact List.mem_append_right _ (List.mem_cons_of_mem _ (List.mem_cons_of_mem _
      (mem_serStr_of_nonascii h hc)))

theorem mem_serMembers_of_mem {c : Char} :
    ∀ (r : List (String × String)) (kv : String × String), kv ∈ r →
      c ∈ serMember kv → c ∈ serMembers r := by
  intro r
  induction r with
  | nil => intro kv hkv; simp at hkv
  | cons kv0 rest ih =>
    intro kv hkv hc
    cases rest with
    | nil =>
      rcases List.mem_cons.1 hkv with h1 | h1
      · subst h1
        exact hc
      · simp at h1
    | cons kv2 rest2 =>
      rcases List.mem_cons.1 hkv with h1 | h1
      · subst h1
        rw [show serMembers (kv :: kv2 :: rest2) =
          serMember kv ++ ',' :: '\n' :: serMembers (kv2 :: rest2) from rfl]
        exact List.mem_append_left _ hc
      · rw [show serMembers (kv0 :: kv2 :: rest2) =
          serMember kv0 ++ ',' :: '\n' :: serMembers (kv2 :: rest2) from rfl]
        exact List.mem_append_right _ (List.mem_cons_of_mem _ (List.mem_cons_of_mem _
          (ih kv h1 hc)))

theorem mem_serRecord_of_mem {c : Char} {r : List (String × String)}
    {kv : String × String} (hkv : kv ∈ r) (hc : c ∈ serMember kv) :
    c ∈ serRecord r := by
  have hr : r ≠ [] := by
    intro h
    subst h
    simp at hkv
  rw [serRecord_ne_nil r hr]
  exact List.mem_cons_of_mem _ (List.mem_cons_of_mem _
    (List.mem_append_left _ (mem_serMembers_of_mem r kv hkv hc)))

theorem mem_serItems_of_mem {c : Char} :
    ∀ (records : List (List (String × String))) (r : List (String × String)),
      r ∈ records → c ∈ serRecord r → c ∈ serItems records := by
  intro records
  induction records with
  | nil => intro r hr; simp at hr
  | cons r0 rest ih =>
    intro r hr hc
    cases rest with
    | nil =>
      rcases List.mem_cons.1 hr with h1 | h1
      · subst h1
        exact List.mem_cons_of_mem _ (List.mem_cons_of_mem _ hc)
      · simp at h1
    | cons r2 rest2 =>
      rcases List.mem_cons.1 hr with h1 | h1
      · subst h1
        rw [show serItems (r :: r2 :: rest2) =
          ' ' :: ' ' :: serRecord r ++ ',' :: '\n' :: serItems (r2 :: rest2) from rfl]
        exact List.mem_cons_of_mem _ (List.mem_cons_of_mem _ (List.mem_append_left _ hc))
      · rw [show serItems (r0 :: r2 :: rest2) =
          ' ' :: ' ' :: serRecord r0 ++ ',' :: '\n' :: serItems (r2 :: rest2) from rfl]
        refine List.mem_cons_of_mem _ (List.mem_cons_of_mem _ ?_)
        exact List.mem_append_right _ (List.mem_cons_of_mem _ (List.mem_cons_of_mem _
          (ih r h1 hc)))

theorem mem_serIndexChars_of_nonascii {c : Char} (h : 128 ≤ c.toNat)
    {records : List (List (String × String))} {r : List (String × String)}
    {kv : String × String} (hr : r ∈ records) (hkv : kv ∈ r)
    (hc : c ∈ kv.1.data ∨ c ∈ kv.2.data) : c ∈ serIndexChars records := by
  have hne : records ≠ [] := by
    intro he
    subst he
    simp at hr
  have hchars : serIndexChars records =
      '[' :: '\n' :: (serItems records ++ '\n' :: [']']) := by
    unfold serIndexChars
    rw [if_neg (by simp [hne])]
  rw [hchars]
  refine List.mem_cons_of_mem _ (List.mem_cons_of_mem _ (List.mem_append_left _ ?_))
  exact mem_serItems_of_mem records r hr
    (mem_serRecord_of_mem hkv (mem_serMember_of_nonascii h hc))

/-- Claim C3: writing a record sequence with `_save_json` and then parsing
the written file as JSON reproduces the original record sequence in the
original order; non-ASCII characters of the records appear literally
(unescaped) in the UTF-8 output. -/
theorem claim_C3_save_index_roundtrip (st : Store) (output_dir rel_path : String)
    (records : List (List (String × String))) :
    ((save_json st output_dir rel_path records).1).txt (output_dir ++ "/" ++ rel_path) =
        some (serIndex records)
    ∧ parseJsonIndex (serIndex records) = some records
    ∧ (∀ (c : Char) (r : List (String × String)) (kv : String × String),
        r ∈ records → kv ∈ r → (c ∈ kv.1.data ∨ c ∈ kv.2.data) → 128 ≤ c.toNat →
        c ∈ (serIndex records).data) := by
  refine ⟨?_, parseJsonIndex_serIndex records, ?_⟩
  · simp [save_json, writeTxt]
  · intro c r kv hr hkv hc h128
    exact mem_serIndexChars_of_nonascii h128 hr hkv hc

/-- Witness for C3 at a concrete record list containing a non-ASCII value. -/
theorem claim_C3_save_index_roundtrip_witness :
    ((save_json emptyStore "data" "parliament/members.json" [[("name", "é")]]).1).txt
        ("data" ++ "/" ++ "parliament/members.json") =
      some (serIndex [[("name", "é")]])
    ∧ parseJsonIndex (serIndex [[("name", "é")]]) = some [[("name", "é")]]
    ∧ 'é' ∈ (serIndex [[("name", "é")]]).data := by
  have h := claim_C3_save_index_roundtrip emptyStore "data" "parliament/members.json"
    [[("name", "é")]]
  refine ⟨h.1, h.2.1, ?_⟩
  exact h.2.2 'é' [("name", "é")] ("name", "é") (by decide) (by decide)
    (by decide) (by decide)
